import Mathlib

/-!
Shallow embedding of the quantum-volume fitter
(`qiskit/ignis/verification/quantum_volume/fitters.py`) and of the Pauli
tomography matrix tables (`qiskit_ignis/tomography/basis/paulibasis.py`).

Python dictionaries are modelled as association lists (`List (String × α)`)
with in-place update semantics; Python floats are modelled as exact rationals;
the transcendental library calls `math.erf` and `** 0.5` are abstracted as
function parameters `erf sqrt : ℚ → ℚ`; raising code paths return `Option` /
an optional error value.
-/

/-- Lookup `d[k]` in a Python dict modelled as an association list:
the first binding of the key wins. -/
def dictGet {α : Type} : List (String × α) → String → Option α
  | [], _ => none
  | (k₁, v) :: rest, k => if k₁ = k then some v else dictGet rest k

/-- Lookup `d.get(k, v₀)` with a default. -/
def dictGetD {α : Type} (d : List (String × α)) (k : String) (v₀ : α) : α :=
  (dictGet d k).getD v₀

/-- Assignment `d[k] = v` on a Python dict: replace the binding in place when the key is
present (keeping its position), otherwise append it at the end. -/
def dictInsert {α : Type} : List (String × α) → String → α → List (String × α)
  | [], k, v => [(k, v)]
  | (k₁, v₁) :: rest, k, v =>
      if k₁ = k then (k₁, v) :: rest else (k₁, v₁) :: dictInsert rest k v

/-- Python `str.split('_')` on the underlying character list. -/
def splitCh : List Char → List (List Char)
  | [] => [[]]
  | c :: rest =>
      if c = '_' then [] :: splitCh rest
      else
        match splitCh rest with
        | [] => [[c]]
        | g :: gs => (c :: g) :: gs

/-- Python `name.split('_')` as a list of strings. -/
def pySplitU (s : String) : List String :=
  (splitCh s.data).map (fun l => ⟨l⟩)

/-- Value of a decimal digit character, `none` for a non-digit. -/
def digitVal (c : Char) : Option ℕ :=
  if '0' ≤ c ∧ c ≤ '9' then some (c.toNat - '0'.toNat) else none

/-- Left fold accumulating decimal digits; `none` on any non-digit. -/
def decAux : ℕ → List Char → Option ℕ
  | acc, [] => some acc
  | acc, c :: rest =>
      match digitVal c with
      | none => none
      | some d => decAux (10 * acc + d) rest

/-- Python `int(s)` restricted to non-negative decimal literals (the only form
the circuit-name convention produces); `none` models the `ValueError`. -/
def pyInt (s : String) : Option ℕ :=
  match s.data with
  | [] => none
  | l => decAux 0 l

/-- Zero-padded binary rendering of `b` with width `w`, most significant bit
first: Python `("{0:0%db}" % w).format(b)` for `b < 2 ^ w`, as characters. -/
def bits : ℕ → ℕ → List Char
  | 0, _ => []
  | w + 1, b => bits w (b / 2) ++ [if b % 2 = 1 then '1' else '0']

/-- The zero-padded binary bitstring of `b` with width `w`. -/
def bitString (w b : ℕ) : String := ⟨bits w b⟩

/-- The circuit-instance name `'qv_depth_%d_trial_%d' % (depth, trial)`. -/
def circName (depth trial : ℕ) : String :=
  "qv_depth_" ++ toString depth ++ "_trial_" ++ toString trial

/-- Sequential `Option`-valued map over a list, stopping at the first failure:
the effect of a Python `for` loop whose body may raise. -/
def omap {α β : Type} (f : α → Option β) : List α → Option (List β)
  | [] => some []
  | a :: rest =>
      match f a with
      | none => none
      | some b =>
          match omap f rest with
          | none => none
          | some bs => some (b :: bs)

/-- A 2×2 complex matrix with exact rational real and imaginary parts,
given row by row. -/
def CMat2 : Type := List (List (ℚ × ℚ))

instance : DecidableEq CMat2 := by unfold CMat2; infer_instance

/-- The function `pauli_preparation_matrix` from `paulibasis.py`: the fixed table of
projector matrices for the six Pauli eigenstate labels; an unrecognized label
falls through every branch and returns no matrix (Python `None`). -/
def pauli_preparation_matrix (label : String) : Option CMat2 :=
  if label = "Xp" then some [[((1:ℚ)/2, 0), (1/2, 0)], [(1/2, 0), (1/2, 0)]]
  else if label = "Xm" then some [[((1:ℚ)/2, 0), (-(1/2), 0)], [(-(1/2), 0), (1/2, 0)]]
  else if label = "Yp" then some [[((1:ℚ)/2, 0), (0, -(1/2))], [(0, 1/2), (1/2, 0)]]
  else if label = "Ym" then some [[((1:ℚ)/2, 0), (0, 1/2)], [(0, -(1/2)), (1/2, 0)]]
  else if label = "Zp" then some [[((1:ℚ), 0), (0, 0)], [(0, 0), (0, 0)]]
  else if label = "Zm" then some [[((0:ℚ), 0), (0, 0)], [(0, 0), (1, 0)]]
  else none

/-- A Python value passed as the `outcome` argument: the code recognizes both
the strings `'0'`, `'1'` and the integers `0`, `1`. -/
inductive PyOutcome : Type
  | str : String → PyOutcome
  | int : ℤ → PyOutcome
deriving DecidableEq

/-- The function `pauli_measurement_matrix` from `paulibasis.py`: dispatches on the
measurement label and outcome and delegates to `pauli_preparation_matrix`;
any unrecognized label/outcome combination returns no matrix. -/
def pauli_measurement_matrix (label : String) (outcome : PyOutcome) : Option CMat2 :=
  if label = "X" then
    if outcome = .str ("0") ∨ outcome = .int 0 then pauli_preparation_matrix ("Xp")
    else if outcome = .str ("1") ∨ outcome = .int 1 then pauli_preparation_matrix ("Xm")
    else none
  else if label = "Y" then
    if outcome = .str ("0") ∨ outcome = .int 0 then pauli_preparation_matrix ("Yp")
    else if outcome = .str ("1") ∨ outcome = .int 1 then pauli_preparation_matrix ("Ym")
    else none
  else if label = "Z" then
    if outcome = .str ("0") ∨ outcome = .int 0 then pauli_preparation_matrix ("Zp")
    else if outcome = .str ("1") ∨ outcome = .int 1 then pauli_preparation_matrix ("Zm")
    else none
  else none

/-- One experiment entry of a backend `Result`: the circuit name from its
header together with its measured counts dictionary. -/
structure ExpEntry : Type where
  name : String
  counts : List (String × ℕ)

/-- A backend result batch (`qiskit.Result`): a list of experiment entries. -/
structure BackendResult : Type where
  results : List ExpEntry

/-- Python `result.get_counts(name)`: the counts of the first experiment with that
name, `none` when the batch holds no such experiment (Python raises there,
which `calc_data` swallows with `try/except`). -/
def getCounts (r : BackendResult) (name : String) : Option (List (String × ℕ)) :=
  (r.results.find? (fun e => e.name == name)).map (fun e => e.counts)

/-- One experiment entry of a statevector-simulator result: the circuit name
and the ideal statevector, a list of complex amplitudes as `(re, im)`. -/
structure SVEntry : Type where
  name : String
  svec : List (ℚ × ℚ)

/-- A statevector-simulator result. -/
structure SVResult : Type where
  results : List SVEntry

/-- The error conditions the fitter can raise: the two `QiskitError`s of
`add_statevectors` (spec: DuplicateRegistration) and `add_data`
(spec: MissingIdealDistribution), the `ValueError` of `int()` on a malformed
circuit name, and the `KeyError` of a dict subscript in the recomputation. -/
inductive QVError : Type
  | duplicateRegistration : String → QVError
  | missingIdealDistribution : String → QVError
  | valueError : QVError
  | keyError : QVError
deriving DecidableEq

/-- The mutable state of a `QVFitter`: the configured depths, the running
trial count, the accumulated raw result batches, and the output tables.
`ydata` holds, per depth, the row
(empirical heavy-output probability, its stderr, ideal probability, its
stderr) — the transposed form of the 4×`len(depths)` array in the source. -/
structure QVState : Type where
  depths : List ℕ
  ntrials : ℕ
  result_list : List BackendResult
  heavy_output_counts : List (String × ℕ)
  circ_shots : List (String × ℕ)
  heavy_output_prob_ideal : List (String × ℚ)
  heavy_outputs : List (String × List String)
  ydata : List (ℚ × ℚ × ℚ × ℚ)

namespace QVFitter

/-- The probability of basis state `b`: the real part of
`pvector[b] = qstate[b] * conj(qstate[b])`, i.e. `re² + im²`. -/
def probAt (svec : List (ℚ × ℚ)) (b : ℕ) : ℚ :=
  (svec.getD b (0, 0)).1 ^ 2 + (svec.getD b (0, 0)).2 ^ 2

/-- The probability dictionary `pmap`: each of the `2 ^ depth` zero-padded
bitstrings mapped to its squared amplitude, in index order. -/
def pmapOf (depth : ℕ) (svec : List (ℚ × ℚ)) : List (String × ℚ) :=
  (List.range (2 ^ depth)).map (fun b => (bitString depth b, probAt svec b))

/-- The value `np.median` computes on a list: average of the two middle elements of the
sorted list when the length is even, the middle element when it is odd. -/
def npMedian (l : List ℚ) : ℚ :=
  let s := l.insertionSort (· ≤ ·)
  if l.length % 2 = 1 then s.getD (l.length / 2) 0
  else (s.getD (l.length / 2 - 1) 0 + s.getD (l.length / 2) 0) / 2

/-- The method `QVFitter._median_probabilities`: the median of each distribution's
values. -/
def median_probabilities (distributions : List (List (String × ℚ))) : List ℚ :=
  distributions.map (fun dist => npMedian (dist.map (fun kv => kv.2)))

/-- The method `QVFitter._heavy_strings`: the keys of the distribution whose probability
strictly exceeds the median. -/
def heavy_strings (ideal_distribution : List (String × ℚ)) (ideal_median : ℚ) :
    List String :=
  (ideal_distribution.map (fun kv => kv.1)).filter
    (fun x => ideal_median < dictGetD ideal_distribution x 0)

/-- The method `QVFitter._subset_probability`: `sum(distribution.get(value, 0) for value
in strings)`. -/
def subset_probability {α : Type} [AddCommMonoid α]
    (strings : List String) (distribution : List (String × α)) : α :=
  (strings.map (fun value => dictGetD distribution value 0)).sum

/-- The body of the `add_statevectors` loop for one circuit: parse the depth
from the name, reject a duplicate registration, then store the heavy set and
the ideal heavy-output probability. -/
def addSV1 (s : QVState) (e : SVEntry) : Except QVError QVState :=
  match ((pySplitU e.name).get? 2).bind pyInt with
  | none => .error .valueError
  | some depth =>
      if (dictGet s.heavy_outputs e.name).isSome then
        .error (.duplicateRegistration e.name)
      else
        let pmap := pmapOf depth e.svec
        let median_prob := median_probabilities [pmap]
        let hs := heavy_strings pmap (median_prob.getD 0 0)
        .ok { s with
            heavy_outputs := dictInsert s.heavy_outputs e.name hs,
            heavy_output_prob_ideal :=
              dictInsert s.heavy_output_prob_ideal e.name
                (subset_probability hs pmap) }

/-- Sequential processing of statevector entries; the first error aborts the
loop, leaving the state mutated so far. -/
def addSVList : QVState → List SVEntry → QVState × Option QVError
  | s, [] => (s, none)
  | s, e :: rest =>
      match addSV1 s e with
      | .error err => (s, some err)
      | .ok s₁ => addSVList s₁ rest

/-- The method `QVFitter.add_statevectors` on a list of statevector results. -/
def add_statevectors (s : QVState) (rs : List SVResult) :
    QVState × Option QVError :=
  addSVList s (rs.flatMap (fun r => r.results))

/-- The body of the `add_data` circuit loop for one experiment entry: parse
the trial index from the last name component, bump the trial count when a new
trial index appears, then require a previously registered ideal
distribution. -/
def addData1 (s : QVState) (e : ExpEntry) : QVState × Option QVError :=
  match ((pySplitU e.name).getLast?).bind pyInt with
  | none => (s, some .valueError)
  | some t =>
      let s₁ := if s.ntrials < t + 1 then { s with ntrials := t + 1 } else s
      if (dictGet s₁.heavy_output_prob_ideal e.name).isSome then (s₁, none)
      else (s₁, some (.missingIdealDistribution e.name))

/-- Sequential processing of the experiment entries of one batch. -/
def addDataEntries : QVState → List ExpEntry → QVState × Option QVError
  | s, [] => (s, none)
  | s, e :: rest =>
      match addData1 s e with
      | (s₁, some err) => (s₁, some err)
      | (s₁, none) => addDataEntries s₁ rest

/-- Processing of one backend result batch: the batch is appended to the
accumulated result list before any of its circuits is examined. -/
def addDataResult (s : QVState) (r : BackendResult) : QVState × Option QVError :=
  addDataEntries { s with result_list := s.result_list ++ [r] } r.results

/-- Sequential processing of a list of backend result batches. -/
def addDataList : QVState → List BackendResult → QVState × Option QVError
  | s, [] => (s, none)
  | s, r :: rest =>
      match addDataResult s r with
      | (s₁, some err) => (s₁, some err)
      | (s₁, none) => addDataList s₁ rest

/-- Modelled from the spec: `build_counts_dict_from_list` is imported from the
characterization fitters module, which is not among the sources; per the spec
it merges a list of count dictionaries by summing counts per bitstring
across batches (spec section 4.3). -/
def build_counts_dict_from_list (count_list : List (List (String × ℕ))) :
    List (String × ℕ) :=
  count_list.foldl
    (fun acc batch =>
      batch.foldl (fun d kv => dictInsert d kv.1 (dictGetD d kv.1 0 + kv.2)) acc)
    []

/-- The body of the `calc_data` loop for one `(depth, trial)` pair: harvest
the counts for the instance from every accumulated batch (a batch without
them contributes nothing), merge them, store the total shots, then look up
the instance's heavy set (a missing entry raises `KeyError`) and store the
heavy-output count. -/
def calcDataStep (s : QVState) (depth trial : ℕ) : Option QVState :=
  let circ_name := circName depth trial
  let count_list := s.result_list.filterMap (fun r => getCounts r circ_name)
  let merged := build_counts_dict_from_list count_list
  let shots := (merged.map (fun kv => kv.2)).sum
  match dictGet s.heavy_outputs circ_name with
  | none => none
  | some hs =>
      some { s with
               circ_shots := dictInsert s.circ_shots circ_name shots,
               heavy_output_counts :=
                 dictInsert s.heavy_output_counts circ_name
                   (subset_probability hs merged) }

/-- The iteration order of `calc_data`: trials outermost, depths innermost. -/
def calcPairs (s : QVState) : List (ℕ × ℕ) :=
  (List.range s.ntrials).flatMap (fun t => s.depths.map (fun d => (d, t)))

/-- Sequential fold of `calcDataStep`, stopping at the first `KeyError`. -/
def calcDataFold : QVState → List (ℕ × ℕ) → Option QVState
  | s, [] => some s
  | s, p :: rest =>
      match calcDataStep s p.1 p.2 with
      | none => none
      | some s₁ => calcDataFold s₁ rest

/-- The method `QVFitter.calc_data`: rebuild the per-instance shot and heavy-output-count
tables from all accumulated batches. -/
def calc_data (s : QVState) : Option QVState :=
  calcDataFold s (calcPairs s)

/-- The `calc_statistics` computation for one depth: the three per-trial
lookups (any missing instance raises `KeyError`), then the four statistics of
that depth.  `sqrt` abstracts the float operation `** 0.5`. -/
def statRow (sqrt : ℚ → ℚ) (s : QVState) (depth : ℕ) : Option (ℚ × ℚ × ℚ × ℚ) :=
  let names := (List.range s.ntrials).map (fun t => circName depth t)
  match omap (dictGet s.heavy_output_counts) names with
  | none => none
  | some exp_vals =>
      match omap (dictGet s.circ_shots) names with
      | none => none
      | some shot_vals =>
          match omap (dictGet s.heavy_output_prob_ideal) names with
          | none => none
          | some ideal_vals =>
              let y0 := ((exp_vals.map (fun n => (n : ℚ))).sum) /
                        ((shot_vals.map (fun n => (n : ℚ))).sum)
              let y1 := sqrt (y0 * (1 - y0) / (s.ntrials : ℚ))
              let y2 := ideal_vals.sum / (s.ntrials : ℚ)
              let y3 := sqrt (y2 * (1 - y2) / (s.ntrials : ℚ))
              some (y0, y1, y2, y3)

/-- The method `QVFitter.calc_statistics`: recompute the whole `ydata` table, one row per
depth. -/
def calc_statistics (sqrt : ℚ → ℚ) (s : QVState) : Option QVState :=
  match omap (statRow sqrt s) s.depths with
  | none => none
  | some rows => some { s with ydata := rows }

/-- The method `QVFitter.add_data`: append the new batches, update the trial count,
check every circuit for a registered ideal distribution, and (when
`rerun_fit` is set) recompute the tables and statistics. -/
def add_data (sqrt : ℚ → ℚ) (s : QVState) (rs : List BackendResult)
    (rerun_fit : Bool) : QVState × Option QVError :=
  match addDataList s rs with
  | (s₁, some err) => (s₁, some err)
  | (s₁, none) =>
      if rerun_fit then
        match calc_data s₁ with
        | none => (s₁, some .keyError)
        | some s₂ =>
            match calc_statistics sqrt s₂ with
            | none => (s₂, some .keyError)
            | some s₃ => (s₃, none)
      else (s₁, none)

/-- The method `QVFitter.qv_success`: per depth, start from `(False, 0.0)`; when the
empirical heavy-output probability exceeds `2/3`, store the confidence and
flag success when it exceeds `0.975`.  The subscripts into `ydata` raise
`IndexError` when the statistics are missing.  `erf` abstracts `math.erf`
and `sqrt` the float operation `** 0.5`. -/
def qv_success (erf sqrt : ℚ → ℚ) (s : QVState) : Option (List (Bool × ℚ)) :=
  omap
    (fun depth_ind =>
      match s.ydata.get? depth_ind with
      | none => none
      | some row =>
          let hmean := row.1
          if 2 / 3 < hmean then
            let cfd := 1 / 2 *
              (1 + erf ((hmean - 2 / 3) / (1 / 10 ^ 10 + row.2.1) / sqrt 2))
            some (decide (975 / 1000 < cfd), cfd)
          else some (false, 0))
    (List.range s.depths.length)

end QVFitter

/-- The total-shots value `calc_data` computes for a circuit instance: the sum
of the merged counts harvested for it from every accumulated batch. -/
def calcShots (s : QVState) (name : String) : ℕ :=
  ((QVFitter.build_counts_dict_from_list
    (s.result_list.filterMap (fun r => getCounts r name))).map
      (fun kv => kv.2)).sum

/-- The heavy-output-count value `calc_data` computes for a circuit instance:
its heavy set's total probability mass within the merged counts. -/
def calcHOC (s : QVState) (name : String) : ℕ :=
  match dictGet s.heavy_outputs name with
  | none => 0
  | some hs =>
      QVFitter.subset_probability hs
        (QVFitter.build_counts_dict_from_list
          (s.result_list.filterMap (fun r => getCounts r name)))

section DictLemmas

variable {α : Type}

theorem dictGet_insert_self (d : List (String × α)) (k : String) (v : α) :
    dictGet (dictInsert d k v) k = some v := by
  induction d with
  | nil => simp [dictInsert, dictGet]
  | cons kv rest ih =>
      obtain ⟨k₁, v₁⟩ := kv
      by_cases h : k₁ = k
      · simp [dictInsert, dictGet, h]
      · simp [dictInsert, dictGet, h, ih]

theorem dictGet_insert_ne (d : List (String × α)) (k k₁ : String) (v : α)
    (h : k₁ ≠ k) : dictGet (dictInsert d k₁ v) k = dictGet d k := by
  induction d with
  | nil => simp [dictInsert, dictGet, h]
  | cons kv rest ih =>
      obtain ⟨k₂, v₂⟩ := kv
      by_cases h₂ : k₂ = k₁
      · subst h₂
        simp [dictInsert, dictGet, h]
      · by_cases h₃ : k₂ = k
        · have h₄ : k ≠ k₁ := Ne.symm h
          simp [dictInsert, dictGet, h₂, h₃, h₄]
        · simp [dictInsert, dictGet, h₂, h₃, ih]

theorem dictInsert_self (d : List (String × α)) (k : String) (v : α)
    (h : dictGet d k = some v) : dictInsert d k v = d := by
  induction d with
  | nil => simp [dictGet] at h
  | cons kv rest ih =>
      obtain ⟨k₁, v₁⟩ := kv
      by_cases h₁ : k₁ = k
      · simp [dictGet, h₁] at h
        simp [dictInsert, h₁, h]
      · simp [dictGet, h₁] at h
        simp [dictInsert, h₁, ih h]

theorem dictGet_eq_none_of_not_mem (d : List (String × α)) (k : String)
    (h : k ∉ d.map (fun kv => kv.1)) : dictGet d k = none := by
  induction d with
  | nil => simp [dictGet]
  | cons kv rest ih =>
      obtain ⟨k₁, v₁⟩ := kv
      simp only [List.map_cons, List.mem_cons] at h
      push_neg at h
      have hne : k₁ ≠ k := fun hk => h.1 hk.symm
      simp [dictGet, hne, ih h.2]

theorem isSome_dictGet_insert (d : List (String × α)) (k k₁ : String) (v : α)
    (h : (dictGet d k).isSome) : (dictGet (dictInsert d k₁ v) k).isSome := by
  by_cases hk : k₁ = k
  · subst hk
    simp [dictGet_insert_self]
  · rwa [dictGet_insert_ne _ _ _ _ hk]

end DictLemmas

section OmapLemmas

variable {α β : Type}

theorem omap_get (f : α → Option β) (l : List α) (out : List β)
    (h : omap f l = some out) :
    ∀ i x, l.get? i = some x → ∃ y, f x = some y ∧ out.get? i = some y := by
  induction l generalizing out with
  | nil => intro i x hx; simp at hx
  | cons a rest ih =>
      intro i x hx
      rw [omap] at h
      cases hfa : f a with
      | none => rw [hfa] at h; exact absurd h (by simp)
      | some b =>
          rw [hfa] at h
          cases hrest : omap f rest with
          | none => rw [hrest] at h; exact absurd h (by simp)
          | some bs =>
              rw [hrest] at h
              simp only [Option.some.injEq] at h
              subst h
              cases i with
              | zero =>
                  simp only [List.get?] at hx
                  cases hx
                  exact ⟨b, hfa, rfl⟩
              | succ j =>
                  simp only [List.get?] at hx ⊢
                  exact ih bs hrest j x hx

theorem omap_length (f : α → Option β) (l : List α) (out : List β)
    (h : omap f l = some out) : out.length = l.length := by
  induction l generalizing out with
  | nil => rw [omap] at h; cases h; rfl
  | cons a rest ih =>
      rw [omap] at h
      cases hfa : f a with
      | none => rw [hfa] at h; exact absurd h (by simp)
      | some b =>
          rw [hfa] at h
          cases hrest : omap f rest with
          | none => rw [hrest] at h; exact absurd h (by simp)
          | some bs =>
              rw [hrest] at h
              cases h
              simp [ih bs hrest]

theorem omap_isSome_iff (f : α → Option β) (l : List α) :
    (omap f l).isSome ↔ ∀ x ∈ l, (f x).isSome := by
  induction l with
  | nil => simp [omap]
  | cons a rest ih =>
      rw [omap]
      cases hfa : f a with
      | none =>
          simp only [Option.isSome_none, Bool.false_eq_true, false_iff]
          intro hall
          have := hall a (List.mem_cons_self a rest)
          rw [hfa] at this
          simp at this
      | some b =>
          cases hrest : omap f rest with
          | none =>
              rw [hrest] at ih
              simp only [Option.isSome_none, Bool.false_eq_true, false_iff] at ih ⊢
              push_neg at ih
              obtain ⟨x, hx, hfx⟩ := ih
              intro hall
              exact hfx (hall x (List.mem_cons_of_mem a hx))
          | some bs =>
              rw [hrest] at ih
              simp only [Option.isSome_some, true_iff] at ih
              simp only [Option.isSome_some, true_iff]
              intro x hx
              rcases List.mem_cons.mp hx with h | h
              · rw [h, hfa]; rfl
              · exact ih x h

theorem omap_congr (f g : α → Option β) (l : List α)
    (h : ∀ x ∈ l, f x = g x) : omap f l = omap g l := by
  induction l with
  | nil => rfl
  | cons a rest ih =>
      rw [omap, omap, h a (List.mem_cons_self a rest),
        ih (fun x hx => h x (List.mem_cons_of_mem a hx))]

end OmapLemmas

/-- C8: for every label outside the recognized sets, `pauli_preparation_matrix`
(labels Xp, Xm, Yp, Ym, Zp, Zm) and `pauli_measurement_matrix` (labels X, Y, Z
with outcome 0 or 1, as an int or a string) return no matrix at all — never a
default matrix. -/
theorem pauli_matrix_unrecognized_label_none :
    (∀ label : String, label ∉ ["Xp", "Xm", "Yp", "Ym", "Zp", "Zm"] →
      pauli_preparation_matrix label = none) ∧
    (∀ (label : String) (outcome : PyOutcome), label ∉ ["X", "Y", "Z"] →
      pauli_measurement_matrix label outcome = none) ∧
    (∀ (label : String) (outcome : PyOutcome),
      outcome ∉ [PyOutcome.str ("0"), PyOutcome.int 0,
                 PyOutcome.str ("1"), PyOutcome.int 1] →
      pauli_measurement_matrix label outcome = none) := by
  refine ⟨?_, ?_, ?_⟩
  · intro label h
    simp only [List.mem_cons, List.not_mem_nil, or_false] at h
    push_neg at h
    obtain ⟨h1, h2, h3, h4, h5, h6⟩ := h
    simp [pauli_preparation_matrix, h1, h2, h3, h4, h5, h6]
  · intro label outcome h
    simp only [List.mem_cons, List.not_mem_nil, or_false] at h
    push_neg at h
    obtain ⟨h1, h2, h3⟩ := h
    simp [pauli_measurement_matrix, h1, h2, h3]
  · intro label outcome h
    simp only [List.mem_cons, List.not_mem_nil, or_false] at h
    push_neg at h
    obtain ⟨h1, h2, h3, h4⟩ := h
    simp [pauli_measurement_matrix, h1, h2, h3, h4]

/-- Witness for C8 at concrete unrecognized labels and outcomes. -/
theorem pauli_matrix_unrecognized_label_none_witness :
    pauli_preparation_matrix ("Q") = none ∧
    pauli_measurement_matrix ("Q") (PyOutcome.int 0) = none ∧
    pauli_measurement_matrix ("X") (PyOutcome.int 7) = none :=
  ⟨pauli_matrix_unrecognized_label_none.1 ("Q") (by decide),
   pauli_matrix_unrecognized_label_none.2.1 ("Q") (PyOutcome.int 0) (by decide),
   pauli_matrix_unrecognized_label_none.2.2 ("X") (PyOutcome.int 7) (by decide)⟩

section MergeLemmas

/-- The inner fold of `build_counts_dict_from_list`: merging one batch into
an accumulator adds, per key, exactly the batch's count for that key
(assuming the batch, being a Python dict, has no duplicate keys). -/
theorem mergeBatch_getD (batch : List (String × ℕ)) (d : List (String × ℕ))
    (k : String) (hnd : (batch.map (fun kv => kv.1)).Nodup) :
    dictGetD
      (batch.foldl (fun d kv => dictInsert d kv.1 (dictGetD d kv.1 0 + kv.2)) d)
      k 0 = dictGetD d k 0 + dictGetD batch k 0 := by
  induction batch generalizing d with
  | nil => simp [dictGetD, dictGet]
  | cons kv rest ih =>
      obtain ⟨k₁, v⟩ := kv
      simp only [List.map_cons, List.nodup_cons] at hnd
      rw [List.foldl_cons, ih _ hnd.2]
      by_cases hk : k₁ = k
      · subst hk
        have hrest : dictGet rest k₁ = none :=
          dictGet_eq_none_of_not_mem rest k₁ hnd.1
        simp [dictGetD, dictGet_insert_self, dictGet, hrest, Nat.add_assoc]
      · rw [dictGetD, dictGet_insert_ne _ _ _ _ hk]
        simp [dictGetD, dictGet, hk]

theorem build_counts_foldl_getD (l : List (List (String × ℕ)))
    (d : List (String × ℕ)) (k : String)
    (h : ∀ b ∈ l, (b.map (fun kv => kv.1)).Nodup) :
    dictGetD
      (l.foldl
        (fun acc batch =>
          batch.foldl (fun d kv => dictInsert d kv.1 (dictGetD d kv.1 0 + kv.2)) acc)
        d) k 0 =
      dictGetD d k 0 + (l.map (fun b => dictGetD b k 0)).sum := by
  induction l generalizing d with
  | nil => simp
  | cons b rest ih =>
      rw [List.foldl_cons, ih _ (fun x hx => h x (List.mem_cons_of_mem b hx)),
        mergeBatch_getD b d k (h b (List.mem_cons_self b rest))]
      simp [Nat.add_assoc]

end MergeLemmas

/-- C4: merging the count batches collected for one circuit instance sums the
counts per bitstring across batches; a batch holding no counts for the
instance is dropped by the harvesting step of `calc_data` rather than raising;
and the two concrete batches of the claim merge as stated. -/
theorem counts_merge_by_summation :
    (∀ (count_list : List (List (String × ℕ))) (k : String),
      (∀ b ∈ count_list, (b.map (fun kv => kv.1)).Nodup) →
      dictGetD (QVFitter.build_counts_dict_from_list count_list) k 0 =
        (count_list.map (fun b => dictGetD b k 0)).sum) ∧
    (∀ (s : QVState) (depth trial : ℕ) (r : BackendResult),
      getCounts r (circName depth trial) = none →
      (s.result_list ++ [r]).filterMap (fun x => getCounts x (circName depth trial)) =
        s.result_list.filterMap (fun x => getCounts x (circName depth trial))) ∧
    QVFitter.build_counts_dict_from_list [[("00", 3)], [("00", 2), ("01", 1)]] =
      [("00", 5), ("01", 1)] := by
  refine ⟨?_, ?_, by decide⟩
  · intro count_list k h
    have := build_counts_foldl_getD count_list [] k h
    rw [QVFitter.build_counts_dict_from_list]
    rw [this]
    simp [dictGetD, dictGet]
  · intro s depth trial r hnone
    rw [List.filterMap_append]
    simp [hnone]

/-- Witness for C4 on the claim's concrete batches. -/
theorem counts_merge_by_summation_witness :
    dictGetD
      (QVFitter.build_counts_dict_from_list [[("00", 3)], [("00", 2), ("01", 1)]])
      ("00") 0 =
      ([[("00", 3)], [("00", 2), ("01", 1)]].map
        (fun b => dictGetD b ("00") 0)).sum :=
  counts_merge_by_summation.1 [[("00", 3)], [("00", 2), ("01", 1)]] ("00")
    (by decide)


/-- C1: for every depth, `qv_success` returns the pair whose success flag is
true exactly when the empirical heavy-output probability exceeds `2/3` and the
confidence `0.5 * (1 + erf((p̂ − 2/3) / ((σ + 1e-10) * √2)))` exceeds `0.975`
(σ being the stored standard error of `p̂`); whenever `p̂ ≤ 2/3` the returned
pair is exactly `(false, 0.0)`. -/
theorem qv_success_verdict (erf sqrt : ℚ → ℚ) (s : QVState) (i : ℕ)
    (row : ℚ × ℚ × ℚ × ℚ)
    (hi : i < s.depths.length)
    (hrow : s.ydata.get? i = some row)
    (hall : ∀ j, j < s.depths.length → (s.ydata.get? j).isSome) :
    ∃ (out : List (Bool × ℚ)) (p : Bool × ℚ),
      QVFitter.qv_success erf sqrt s = some out ∧ out.get? i = some p ∧
      (p.1 = true ↔ 2 / 3 < row.1 ∧
        975 / 1000 <
          1 / 2 * (1 + erf ((row.1 - 2 / 3) / ((row.2.1 + 1 / 10 ^ 10) * sqrt 2)))) ∧
      (2 / 3 < row.1 →
        p.2 = 1 / 2 * (1 + erf ((row.1 - 2 / 3) / ((row.2.1 + 1 / 10 ^ 10) * sqrt 2)))) ∧
      (row.1 ≤ 2 / 3 → p = (false, 0)) := by
  have hsome : (QVFitter.qv_success erf sqrt s).isSome := by
    rw [QVFitter.qv_success, omap_isSome_iff]
    intro j hj
    rw [List.mem_range] at hj
    obtain ⟨rj, hrj⟩ := Option.isSome_iff_exists.mp (hall j hj)
    rw [hrj]
    by_cases hc : 2 / 3 < rj.1
    · simp only [if_pos hc, Option.isSome_some]
    · simp only [if_neg hc, Option.isSome_some]
  obtain ⟨out, hout⟩ := Option.isSome_iff_exists.mp hsome
  have hrange : (List.range s.depths.length).get? i = some i := by
    rw [List.get?_eq_getElem?]
    exact List.getElem?_range hi
  obtain ⟨p, hp₀, houti⟩ :=
    omap_get _ _ out (by rw [QVFitter.qv_success] at hout; exact hout) i i hrange
  beta_reduce at hp₀
  rw [hrow] at hp₀
  have hp : (if 2 / 3 < row.1 then
      some (decide (975 / 1000 <
              1 / 2 * (1 + erf ((row.1 - 2 / 3) / (1 / 10 ^ 10 + row.2.1) / sqrt 2))),
            1 / 2 * (1 + erf ((row.1 - 2 / 3) / (1 / 10 ^ 10 + row.2.1) / sqrt 2)))
    else some (false, 0)) = some p := hp₀
  have harg : (row.1 - 2 / 3) / (1 / 10 ^ 10 + row.2.1) / sqrt 2 =
      (row.1 - 2 / 3) / ((row.2.1 + 1 / 10 ^ 10) * sqrt 2) := by
    rw [div_div, add_comm]
  by_cases hm : 2 / 3 < row.1
  · rw [if_pos hm] at hp
    simp only [Option.some.injEq] at hp
    subst hp
    refine ⟨out, _, hout, houti, ?_, ?_, ?_⟩
    · simp only [decide_eq_true_eq, harg]
      exact ⟨fun h => ⟨hm, h⟩, fun h => h.2⟩
    · intro _
      show 1 / 2 * (1 + erf ((row.1 - 2 / 3) / (1 / 10 ^ 10 + row.2.1) / sqrt 2)) = _
      rw [harg]
    · intro hle
      exact absurd hm (not_lt.mpr hle)
  · rw [if_neg hm] at hp
    simp only [Option.some.injEq] at hp
    subst hp
    refine ⟨out, _, hout, houti, ?_, ?_, ?_⟩
    · simp only [show ((false, (0 : ℚ)).1 : Bool) = false from rfl,
        Bool.false_eq_true, false_iff, not_and]
      intro h
      exact absurd h hm
    · intro h
      exact absurd h hm
    · intro _
      rfl

/-- Witness for C1: a single-depth state whose stored `p̂ = 7/10` exceeds
`2/3`, with `erf` and `sqrt` instantiated by the identity function. -/
theorem qv_success_verdict_witness :
    ∃ (out : List (Bool × ℚ)) (p : Bool × ℚ),
      QVFitter.qv_success (fun q => q) (fun q => q)
        { depths := [1], ntrials := 1, result_list := [],
          heavy_output_counts := [], circ_shots := [],
          heavy_output_prob_ideal := [], heavy_outputs := [],
          ydata := [(7 / 10, 21 / 100, 7 / 10, 21 / 100)] } = some out ∧
      out.get? 0 = some p ∧
      (p.1 = true ↔ 2 / 3 < (7 : ℚ) / 10 ∧
        975 / 1000 <
          1 / 2 * (1 + ((7 / 10 - 2 / 3) / (((21 : ℚ) / 100 + 1 / 10 ^ 10) * 2)))) ∧
      (2 / 3 < (7 : ℚ) / 10 →
        p.2 = 1 / 2 * (1 + ((7 / 10 - 2 / 3) / (((21 : ℚ) / 100 + 1 / 10 ^ 10) * 2)))) ∧
      ((7 : ℚ) / 10 ≤ 2 / 3 → p = (false, 0)) :=
  qv_success_verdict (fun q => q) (fun q => q)
    { depths := [1], ntrials := 1, result_list := [],
      heavy_output_counts := [], circ_shots := [],
      heavy_output_prob_ideal := [], heavy_outputs := [],
      ydata := [(7 / 10, 21 / 100, 7 / 10, 21 / 100)] }
    0 (7 / 10, 21 / 100, 7 / 10, 21 / 100) (by decide) rfl
    (by
      intro j hj
      match j, hj with
      | 0, _ => rfl)

/-- C3: after `calc_statistics` with trial count `N`, the row stored for a
depth holds: the empirical heavy-output probability
`p̂ = (Σ heavy-output counts) / (Σ shots)` over the `N` trials (shot-weighted),
its standard error `sqrt(p̂·(1−p̂)/N)`, the ideal heavy-output probability as
the plain arithmetic mean `(Σ ideal probabilities) / N` (not shot-weighted),
and its standard error `sqrt(p_ideal·(1−p_ideal)/N)`. -/
theorem calc_statistics_stores_formulas (sqrt : ℚ → ℚ) (s : QVState)
    (i d : ℕ) (exp_vals shot_vals : List ℕ) (ideal_vals : List ℚ)
    (hd : s.depths.get? i = some d)
    (hexp : omap (dictGet s.heavy_output_counts)
      ((List.range s.ntrials).map (fun t => circName d t)) = some exp_vals)
    (hshot : omap (dictGet s.circ_shots)
      ((List.range s.ntrials).map (fun t => circName d t)) = some shot_vals)
    (hideal : omap (dictGet s.heavy_output_prob_ideal)
      ((List.range s.ntrials).map (fun t => circName d t)) = some ideal_vals)
    (hall : ∀ d' ∈ s.depths, (QVFitter.statRow sqrt s d').isSome) :
    ∃ s', QVFitter.calc_statistics sqrt s = some s' ∧
      s'.ydata.get? i =
        some ((exp_vals.map (fun n => (n : ℚ))).sum /
                (shot_vals.map (fun n => (n : ℚ))).sum,
              sqrt ((exp_vals.map (fun n => (n : ℚ))).sum /
                      (shot_vals.map (fun n => (n : ℚ))).sum *
                    (1 - (exp_vals.map (fun n => (n : ℚ))).sum /
                          (shot_vals.map (fun n => (n : ℚ))).sum) /
                    (s.ntrials : ℚ)),
              ideal_vals.sum / (s.ntrials : ℚ),
              sqrt (ideal_vals.sum / (s.ntrials : ℚ) *
                    (1 - ideal_vals.sum / (s.ntrials : ℚ)) / (s.ntrials : ℚ))) := by
  have hsome : (omap (QVFitter.statRow sqrt s) s.depths).isSome :=
    (omap_isSome_iff _ _).mpr hall
  obtain ⟨rows, hrows⟩ := Option.isSome_iff_exists.mp hsome
  refine ⟨{ s with ydata := rows }, ?_, ?_⟩
  · rw [QVFitter.calc_statistics, hrows]
  · obtain ⟨y, hy, hrow⟩ := omap_get _ _ rows hrows i d hd
    rw [QVFitter.statRow] at hy
    simp only at hy
    rw [hexp, hshot, hideal] at hy
    simp only [Option.some.injEq] at hy
    show ({ s with ydata := rows } : QVState).ydata.get? i = _
    rw [hrow, ← hy]

/-- Witness for C3: one depth, one trial, 70 heavy counts out of 100 shots,
ideal heavy-output probability `7/10`. -/
theorem calc_statistics_stores_formulas_witness :
    ∃ s', QVFitter.calc_statistics (fun q => q)
        { depths := [1], ntrials := 1, result_list := [],
          heavy_output_counts := [("qv_depth_1_trial_0", 70)],
          circ_shots := [("qv_depth_1_trial_0", 100)],
          heavy_output_prob_ideal := [("qv_depth_1_trial_0", 7 / 10)],
          heavy_outputs := [], ydata := [] } = some s' ∧
      s'.ydata.get? 0 =
        some ((([70].map (fun n => (n : ℚ))).sum /
                 ([100].map (fun n => (n : ℚ))).sum,
               ([70].map (fun n => (n : ℚ))).sum /
                   ([100].map (fun n => (n : ℚ))).sum *
                   (1 - ([70].map (fun n => (n : ℚ))).sum /
                         ([100].map (fun n => (n : ℚ))).sum) / ((1 : ℕ) : ℚ),
               ([(7 : ℚ) / 10].sum) / ((1 : ℕ) : ℚ),
               ([(7 : ℚ) / 10].sum) / ((1 : ℕ) : ℚ) *
                   (1 - ([(7 : ℚ) / 10].sum) / ((1 : ℕ) : ℚ)) / ((1 : ℕ) : ℚ))) :=
  calc_statistics_stores_formulas (fun q => q)
    { depths := [1], ntrials := 1, result_list := [],
      heavy_output_counts := [("qv_depth_1_trial_0", 70)],
      circ_shots := [("qv_depth_1_trial_0", 100)],
      heavy_output_prob_ideal := [("qv_depth_1_trial_0", 7 / 10)],
      heavy_outputs := [], ydata := [] }
    0 1 [70] [100] [7 / 10] rfl rfl rfl rfl
    (by
      intro d hd
      rw [List.mem_singleton] at hd
      subst hd
      rfl)

section AddDataLemmas

theorem addData1_prob_ideal (s : QVState) (e : ExpEntry) :
    ((QVFitter.addData1 s e).1).heavy_output_prob_ideal =
      s.heavy_output_prob_ideal := by
  rw [QVFitter.addData1]
  cases ((pySplitU e.name).getLast?).bind pyInt with
  | none => rfl
  | some t =>
      dsimp only
      split
      · split <;> rfl
      · split <;> rfl

theorem addData1_result_list (s : QVState) (e : ExpEntry) :
    ((QVFitter.addData1 s e).1).result_list = s.result_list := by
  rw [QVFitter.addData1]
  cases ((pySplitU e.name).getLast?).bind pyInt with
  | none => rfl
  | some t =>
      dsimp only
      split
      · split <;> rfl
      · split <;> rfl

theorem addDataEntries_prob_ideal (es : List ExpEntry) (s : QVState) :
    ((QVFitter.addDataEntries s es).1).heavy_output_prob_ideal =
      s.heavy_output_prob_ideal := by
  induction es generalizing s with
  | nil => rfl
  | cons e rest ih =>
      rw [QVFitter.addDataEntries]
      rcases h : QVFitter.addData1 s e with ⟨s₁, err⟩
      have h₁ : s₁.heavy_output_prob_ideal = s.heavy_output_prob_ideal := by
        have h₂ := addData1_prob_ideal s e
        rw [h] at h₂
        exact h₂
      cases err with
      | none =>
          dsimp only
          rw [ih s₁, h₁]
      | some err => exact h₁

theorem addDataEntries_result_list (es : List ExpEntry) (s : QVState) :
    ((QVFitter.addDataEntries s es).1).result_list = s.result_list := by
  induction es generalizing s with
  | nil => rfl
  | cons e rest ih =>
      rw [QVFitter.addDataEntries]
      rcases h : QVFitter.addData1 s e with ⟨s₁, err⟩
      have h₁ : s₁.result_list = s.result_list := by
        have h₂ := addData1_result_list s e
        rw [h] at h₂
        exact h₂
      cases err with
      | none =>
          dsimp only
          rw [ih s₁, h₁]
      | some err => exact h₁

/-- Within one batch, when every circuit name parses, the only error
`addDataEntries` can produce is a missing ideal distribution. -/
theorem addDataEntries_error_shape (es : List ExpEntry) (s : QVState)
    (hparse : ∀ e ∈ es, (((pySplitU e.name).getLast?).bind pyInt).isSome)
    (err : QVError) (herr : (QVFitter.addDataEntries s es).2 = some err) :
    ∃ n, err = QVError.missingIdealDistribution n := by
  induction es generalizing s with
  | nil => exact absurd herr (by simp [QVFitter.addDataEntries])
  | cons e rest ih =>
      obtain ⟨t, ht⟩ :=
        Option.isSome_iff_exists.mp (hparse e (List.mem_cons_self e rest))
      rw [QVFitter.addDataEntries, QVFitter.addData1, ht] at herr
      dsimp only at herr
      by_cases hreg : (dictGet
          ((if s.ntrials < t + 1 then
              { s with ntrials := t + 1 } else s).heavy_output_prob_ideal)
          e.name).isSome
      · rw [if_pos hreg] at herr
        exact ih _ (fun x hx => hparse x (List.mem_cons_of_mem e hx)) herr
      · rw [if_neg hreg] at herr
        simp only [Option.some.injEq] at herr
        exact ⟨e.name, herr.symm⟩

/-- When every name parses and some circuit of the batch has no registered
ideal distribution, `addDataEntries` reports a missing ideal distribution. -/
theorem addDataEntries_missing (es : List ExpEntry) (s : QVState)
    (hparse : ∀ e ∈ es, (((pySplitU e.name).getLast?).bind pyInt).isSome)
    (hmiss : ∃ e ∈ es, dictGet s.heavy_output_prob_ideal e.name = none) :
    ∃ n, (QVFitter.addDataEntries s es).2 =
      some (QVError.missingIdealDistribution n) := by
  induction es generalizing s with
  | nil => simp at hmiss
  | cons e rest ih =>
      obtain ⟨t, ht⟩ :=
        Option.isSome_iff_exists.mp (hparse e (List.mem_cons_self e rest))
      rw [QVFitter.addDataEntries, QVFitter.addData1, ht]
      dsimp only
      have hif : ((if s.ntrials < t + 1 then
          { s with ntrials := t + 1 } else s).heavy_output_prob_ideal) =
          s.heavy_output_prob_ideal := by
        split <;> rfl
      by_cases hreg : (dictGet
          ((if s.ntrials < t + 1 then
              { s with ntrials := t + 1 } else s).heavy_output_prob_ideal)
          e.name).isSome
      · rw [if_pos hreg]
        obtain ⟨e₁, he₁, hnone⟩ := hmiss
        rcases List.mem_cons.mp he₁ with heq | hmem
        · rw [hif] at hreg
          rw [heq] at hnone
          rw [hnone] at hreg
          simp at hreg
        · exact ih _ (fun x hx => hparse x (List.mem_cons_of_mem e hx))
            ⟨e₁, hmem, by rw [hif]; exact hnone⟩
      · rw [if_neg hreg]
        exact ⟨e.name, rfl⟩

theorem addDataList_result_list (rs : List BackendResult) (s : QVState)
    (r : BackendResult) (hr : r ∈ s.result_list) :
    r ∈ ((QVFitter.addDataList s rs).1).result_list := by
  induction rs generalizing s with
  | nil => exact hr
  | cons r₁ rest ih =>
      rw [QVFitter.addDataList, QVFitter.addDataResult]
      rcases h : QVFitter.addDataEntries
          { s with result_list := s.result_list ++ [r₁] } r₁.results with ⟨s₁, err⟩
      have h₁ : s₁.result_list = s.result_list ++ [r₁] := by
        have h₂ := addDataEntries_result_list r₁.results
          { s with result_list := s.result_list ++ [r₁] }
        rw [h] at h₂
        exact h₂
      have hr₁ : r ∈ s₁.result_list := by
        rw [h₁]
        exact List.mem_append_left _ hr
      cases err with
      | none => exact ih s₁ hr₁
      | some err => exact hr₁

theorem addDataList_prob_ideal (rs : List BackendResult) (s : QVState) :
    ((QVFitter.addDataList s rs).1).heavy_output_prob_ideal =
      s.heavy_output_prob_ideal := by
  induction rs generalizing s with
  | nil => rfl
  | cons r rest ih =>
      rw [QVFitter.addDataList, QVFitter.addDataResult]
      rcases h : QVFitter.addDataEntries
          { s with result_list := s.result_list ++ [r] } r.results with ⟨s₁, err⟩
      have h₁ : s₁.heavy_output_prob_ideal = s.heavy_output_prob_ideal := by
        have h₂ := addDataEntries_prob_ideal r.results
          { s with result_list := s.result_list ++ [r] }
        rw [h] at h₂
        exact h₂
      cases err with
      | none =>
          dsimp only
          rw [ih s₁, h₁]
      | some err => exact h₁

theorem addDataList_missing (rs : List BackendResult) (s : QVState)
    (hparse : ∀ r ∈ rs, ∀ e ∈ r.results,
      (((pySplitU e.name).getLast?).bind pyInt).isSome)
    (hmiss : ∃ r ∈ rs, ∃ e ∈ r.results,
      dictGet s.heavy_output_prob_ideal e.name = none) :
    ∃ n, (QVFitter.addDataList s rs).2 =
      some (QVError.missingIdealDistribution n) := by
  induction rs generalizing s with
  | nil => simp at hmiss
  | cons r rest ih =>
      rw [QVFitter.addDataList, QVFitter.addDataResult]
      rcases h : QVFitter.addDataEntries
          { s with result_list := s.result_list ++ [r] } r.results with ⟨s₁, err⟩
      have hpi : s₁.heavy_output_prob_ideal = s.heavy_output_prob_ideal := by
        have h₂ := addDataEntries_prob_ideal r.results
          { s with result_list := s.result_list ++ [r] }
        rw [h] at h₂
        exact h₂
      cases err with
      | none =>
          dsimp only
          obtain ⟨r₁, hr₁, e₁, he₁, hnone⟩ := hmiss
          rcases List.mem_cons.mp hr₁ with heq | hmem
          · -- the witness batch is `r`, yet its processing reported no error:
            -- impossible, since its missing circuit forces an error
            subst heq
            obtain ⟨n, hn⟩ := addDataEntries_missing r₁.results
              { s with result_list := s.result_list ++ [r₁] }
              (hparse r₁ (List.mem_cons_self r₁ rest)) ⟨e₁, he₁, hnone⟩
            rw [h] at hn
            simp at hn
          · exact ih s₁ (fun x hx => hparse x (List.mem_cons_of_mem r hx))
              ⟨r₁, hmem, e₁, he₁, by rw [hpi]; exact hnone⟩
      | some err =>
          obtain ⟨r₁, hr₁, e₁, he₁, hnone⟩ := hmiss
          rcases List.mem_cons.mp hr₁ with heq | hmem
          · subst heq
            obtain ⟨n, hn⟩ := addDataEntries_missing r₁.results
              { s with result_list := s.result_list ++ [r₁] }
              (hparse r₁ (List.mem_cons_self r₁ rest)) ⟨e₁, he₁, hnone⟩
            rw [h] at hn
            simp only [Option.some.injEq] at hn
            exact ⟨n, by rw [hn]⟩
          · -- a batch before the witness already failed; under the parse
            -- hypothesis its error is still a missing ideal distribution
            obtain ⟨n, hn⟩ := addDataEntries_error_shape r.results
              { s with result_list := s.result_list ++ [r] }
              (hparse r (List.mem_cons_self r rest)) err (by rw [h])
            exact ⟨n, by rw [hn]⟩

end AddDataLemmas

/-- C5: adding a result batch that contains counts for a circuit instance
with no previously registered ideal distribution makes `add_data` fail with
the missing-ideal-distribution error, surfaced to the caller. -/
theorem add_data_missing_ideal (sqrt : ℚ → ℚ) (s : QVState)
    (rs : List BackendResult) (rerun_fit : Bool)
    (hparse : ∀ r ∈ rs, ∀ e ∈ r.results,
      (((pySplitU e.name).getLast?).bind pyInt).isSome)
    (hmiss : ∃ r ∈ rs, ∃ e ∈ r.results,
      dictGet s.heavy_output_prob_ideal e.name = none) :
    ∃ n, (QVFitter.add_data sqrt s rs rerun_fit).2 =
      some (QVError.missingIdealDistribution n) := by
  obtain ⟨n, hn⟩ := addDataList_missing rs s hparse hmiss
  rw [QVFitter.add_data]
  rcases h : QVFitter.addDataList s rs with ⟨s₁, err⟩
  rw [h] at hn
  simp only at hn
  rw [hn]
  exact ⟨n, rfl⟩

/-- Witness for C5: a batch with counts for `qv_depth_1_trial_0` added to a
fitter state with no registered ideal distributions. -/
theorem add_data_missing_ideal_witness :
    ∃ n, (QVFitter.add_data (fun q => q)
      { depths := [1], ntrials := 0, result_list := [],
        heavy_output_counts := [], circ_shots := [],
        heavy_output_prob_ideal := [], heavy_outputs := [], ydata := [] }
      [⟨[⟨"qv_depth_1_trial_0", [("0", 3)]⟩]⟩] true).2 =
      some (QVError.missingIdealDistribution n) :=
  add_data_missing_ideal (fun q => q)
    { depths := [1], ntrials := 0, result_list := [],
      heavy_output_counts := [], circ_shots := [],
      heavy_output_prob_ideal := [], heavy_outputs := [], ydata := [] }
    [⟨[⟨"qv_depth_1_trial_0", [("0", 3)]⟩]⟩] true
    (by
      intro r hr e he
      rw [List.mem_singleton] at hr
      subst hr
      rw [List.mem_singleton] at he
      subst he
      rfl)
    ⟨⟨[⟨"qv_depth_1_trial_0", [("0", 3)]⟩]⟩, List.mem_singleton.mpr rfl,
      ⟨"qv_depth_1_trial_0", [("0", 3)]⟩, List.mem_singleton.mpr rfl, rfl⟩

section CalcFrameLemmas

/-- One `calc_data` step only rewrites the shot and heavy-output-count
tables. -/
theorem calcDataStep_frame (s s' : QVState) (d t : ℕ)
    (h : QVFitter.calcDataStep s d t = some s') :
    s'.depths = s.depths ∧ s'.ntrials = s.ntrials ∧
    s'.result_list = s.result_list ∧ s'.heavy_outputs = s.heavy_outputs ∧
    s'.heavy_output_prob_ideal = s.heavy_output_prob_ideal ∧
    s'.ydata = s.ydata := by
  rw [QVFitter.calcDataStep] at h
  cases hh : dictGet s.heavy_outputs (circName d t) with
  | none => rw [hh] at h; exact absurd h (by simp)
  | some hs =>
      rw [hh] at h
      simp only [Option.some.injEq] at h
      subst h
      exact ⟨rfl, rfl, rfl, rfl, rfl, rfl⟩

theorem calcDataFold_frame (ps : List (ℕ × ℕ)) (s s' : QVState)
    (h : QVFitter.calcDataFold s ps = some s') :
    s'.depths = s.depths ∧ s'.ntrials = s.ntrials ∧
    s'.result_list = s.result_list ∧ s'.heavy_outputs = s.heavy_outputs ∧
    s'.heavy_output_prob_ideal = s.heavy_output_prob_ideal ∧
    s'.ydata = s.ydata := by
  induction ps generalizing s with
  | nil =>
      rw [QVFitter.calcDataFold] at h
      simp only [Option.some.injEq] at h
      subst h
      exact ⟨rfl, rfl, rfl, rfl, rfl, rfl⟩
  | cons p rest ih =>
      rw [QVFitter.calcDataFold] at h
      cases hstep : QVFitter.calcDataStep s p.1 p.2 with
      | none => rw [hstep] at h; exact absurd h (by simp)
      | some s₁ =>
          rw [hstep] at h
          obtain ⟨h1, h2, h3, h4, h5, h6⟩ := ih s₁ h
          obtain ⟨g1, g2, g3, g4, g5, g6⟩ := calcDataStep_frame s s₁ p.1 p.2 hstep
          exact ⟨h1.trans g1, h2.trans g2, h3.trans g3, h4.trans g4,
            h5.trans g5, h6.trans g6⟩

theorem calc_data_frame (s s' : QVState) (h : QVFitter.calc_data s = some s') :
    s'.depths = s.depths ∧ s'.ntrials = s.ntrials ∧
    s'.result_list = s.result_list ∧ s'.heavy_outputs = s.heavy_outputs ∧
    s'.heavy_output_prob_ideal = s.heavy_output_prob_ideal ∧
    s'.ydata = s.ydata :=
  calcDataFold_frame (QVFitter.calcPairs s) s s' h

theorem calc_statistics_frame (sq : ℚ → ℚ) (s s' : QVState)
    (h : QVFitter.calc_statistics sq s = some s') :
    s'.depths = s.depths ∧ s'.ntrials = s.ntrials ∧
    s'.result_list = s.result_list ∧ s'.heavy_outputs = s.heavy_outputs ∧
    s'.heavy_output_prob_ideal = s.heavy_output_prob_ideal ∧
    s'.heavy_output_counts = s.heavy_output_counts ∧
    s'.circ_shots = s.circ_shots := by
  rw [QVFitter.calc_statistics] at h
  cases hrows : omap (QVFitter.statRow sq s) s.depths with
  | none => rw [hrows] at h; exact absurd h (by simp)
  | some rows =>
      rw [hrows] at h
      simp only [Option.some.injEq] at h
      subst h
      exact ⟨rfl, rfl, rfl, rfl, rfl, rfl, rfl⟩

end CalcFrameLemmas

/-- C9: `add_data` is not atomic on error — whenever a single-batch call
reports an error, the batch has already been appended to the accumulated
result list; and on a concrete batch whose circuit has no registered ideal
distribution, the error is raised with the batch appended and the trial
count already increased from 0 to 1. -/
theorem add_data_error_not_atomic :
    (∀ (sqrt : ℚ → ℚ) (s : QVState) (r : BackendResult) (rerun_fit : Bool)
      (err : QVError),
      (QVFitter.add_data sqrt s [r] rerun_fit).2 = some err →
      r ∈ ((QVFitter.add_data sqrt s [r] rerun_fit).1).result_list) ∧
    ((QVFitter.add_data (fun q => q)
        { depths := [1], ntrials := 0, result_list := [],
          heavy_output_counts := [], circ_shots := [],
          heavy_output_prob_ideal := [], heavy_outputs := [], ydata := [] }
        [⟨[⟨"qv_depth_1_trial_0", [("0", 3)]⟩]⟩] true).2 =
      some (QVError.missingIdealDistribution ("qv_depth_1_trial_0")) ∧
     ((QVFitter.add_data (fun q => q)
        { depths := [1], ntrials := 0, result_list := [],
          heavy_output_counts := [], circ_shots := [],
          heavy_output_prob_ideal := [], heavy_outputs := [], ydata := [] }
        [⟨[⟨"qv_depth_1_trial_0", [("0", 3)]⟩]⟩] true).1).ntrials = 1 ∧
     ((QVFitter.add_data (fun q => q)
        { depths := [1], ntrials := 0, result_list := [],
          heavy_output_counts := [], circ_shots := [],
          heavy_output_prob_ideal := [], heavy_outputs := [], ydata := [] }
        [⟨[⟨"qv_depth_1_trial_0", [("0", 3)]⟩]⟩] true).1).result_list =
      [⟨[⟨"qv_depth_1_trial_0", [("0", 3)]⟩]⟩]) := by
  constructor
  · intro sqrt s r rerun_fit err herr
    have hmem : r ∈ ((QVFitter.addDataList s [r]).1).result_list := by
      rw [QVFitter.addDataList, QVFitter.addDataResult]
      rcases h : QVFitter.addDataEntries
          { s with result_list := s.result_list ++ [r] } r.results with ⟨s₁, e₁⟩
      have h₁ : s₁.result_list = s.result_list ++ [r] := by
        have h₂ := addDataEntries_result_list r.results
          { s with result_list := s.result_list ++ [r] }
        rw [h] at h₂
        exact h₂
      have hr₁ : r ∈ s₁.result_list := by
        rw [h₁]
        exact List.mem_append_right _ (List.mem_singleton.mpr rfl)
      cases e₁ with
      | none => simpa [QVFitter.addDataList] using hr₁
      | some e₂ => exact hr₁
    rw [QVFitter.add_data] at herr ⊢
    rcases hlist : QVFitter.addDataList s [r] with ⟨s₁, lerr⟩
    rw [hlist] at hmem herr
    cases lerr with
    | some e₂ => exact hmem
    | none =>
        by_cases hfit : rerun_fit = true
        · simp only [if_pos hfit] at herr ⊢
          cases hcd : QVFitter.calc_data s₁ with
          | none => exact hmem
          | some s₂ =>
              dsimp only at herr ⊢
              have hs₂ : s₂.result_list = s₁.result_list :=
                (calc_data_frame s₁ s₂ hcd).2.2.1
              cases hcs : QVFitter.calc_statistics sqrt s₂ with
              | none =>
                  show r ∈ s₂.result_list
                  rw [hs₂]
                  exact hmem
              | some s₃ =>
                  rw [hcd] at herr
                  dsimp only at herr
                  rw [hcs] at herr
                  exact Option.noConfusion herr
        · simp only [if_neg hfit] at herr
          exact Option.noConfusion herr
  · exact ⟨rfl, rfl, rfl⟩

/-- Witness for C9, applying the universal part to the concrete erroring
batch. -/
theorem add_data_error_not_atomic_witness :
    (⟨[⟨"qv_depth_1_trial_0", [("0", 3)]⟩]⟩ : BackendResult) ∈
      ((QVFitter.add_data (fun q => q)
        { depths := [1], ntrials := 0, result_list := [],
          heavy_output_counts := [], circ_shots := [],
          heavy_output_prob_ideal := [], heavy_outputs := [], ydata := [] }
        [⟨[⟨"qv_depth_1_trial_0", [("0", 3)]⟩]⟩] true).1).result_list :=
  add_data_error_not_atomic.1 (fun q => q)
    { depths := [1], ntrials := 0, result_list := [],
      heavy_output_counts := [], circ_shots := [],
      heavy_output_prob_ideal := [], heavy_outputs := [], ydata := [] }
    ⟨[⟨"qv_depth_1_trial_0", [("0", 3)]⟩]⟩ true
    (QVError.missingIdealDistribution ("qv_depth_1_trial_0")) rfl

section AddSVLemmas

/-- A successful `addSV1` step only grows the registered tables. -/
theorem addSV1_mono (s s' : QVState) (e : SVEntry)
    (h : QVFitter.addSV1 s e = .ok s') (k : String)
    (hk : (dictGet s.heavy_outputs k).isSome) :
    (dictGet s'.heavy_outputs k).isSome := by
  rw [QVFitter.addSV1] at h
  cases hp : ((pySplitU e.name).get? 2).bind pyInt with
  | none => rw [hp] at h; exact absurd h (by simp)
  | some depth =>
      rw [hp] at h
      dsimp only at h
      by_cases hdup : (dictGet s.heavy_outputs e.name).isSome
      · rw [if_pos hdup] at h
        exact absurd h (by simp)
      · rw [if_neg hdup] at h
        simp only [Except.ok.injEq] at h
        subst h
        exact isSome_dictGet_insert _ _ _ _ hk

/-- When every circuit name of the batch parses and some circuit is already
registered, the statevector ingestion loop reports a duplicate
registration. -/
theorem addSVList_duplicate (es : List SVEntry) (s : QVState)
    (hparse : ∀ e ∈ es, (((pySplitU e.name).get? 2).bind pyInt).isSome)
    (hdup : ∃ e ∈ es, (dictGet s.heavy_outputs e.name).isSome) :
    ∃ n, (QVFitter.addSVList s es).2 =
      some (QVError.duplicateRegistration n) := by
  induction es generalizing s with
  | nil => simp at hdup
  | cons e rest ih =>
      obtain ⟨depth, hde⟩ :=
        Option.isSome_iff_exists.mp (hparse e (List.mem_cons_self e rest))
      rw [QVFitter.addSVList]
      by_cases hreg : (dictGet s.heavy_outputs e.name).isSome
      · rw [show QVFitter.addSV1 s e =
            .error (.duplicateRegistration e.name) from by
          rw [QVFitter.addSV1, hde]
          dsimp only
          rw [if_pos hreg]]
        exact ⟨e.name, rfl⟩
      · have hok : QVFitter.addSV1 s e = .ok
            { s with
                heavy_outputs := dictInsert s.heavy_outputs e.name
                  (QVFitter.heavy_strings (QVFitter.pmapOf depth e.svec)
                    ((QVFitter.median_probabilities
                      [QVFitter.pmapOf depth e.svec]).getD 0 0)),
                heavy_output_prob_ideal :=
                  dictInsert s.heavy_output_prob_ideal e.name
                    (QVFitter.subset_probability
                      (QVFitter.heavy_strings (QVFitter.pmapOf depth e.svec)
                        ((QVFitter.median_probabilities
                          [QVFitter.pmapOf depth e.svec]).getD 0 0))
                      (QVFitter.pmapOf depth e.svec)) } := by
          rw [QVFitter.addSV1, hde]
          dsimp only
          rw [if_neg hreg]
        rw [hok]
        obtain ⟨e₁, he₁, hsome⟩ := hdup
        rcases List.mem_cons.mp he₁ with heq | hmem
        · rw [heq] at hsome
          exact absurd hsome hreg
        · refine ih _ (fun x hx => hparse x (List.mem_cons_of_mem e hx))
            ⟨e₁, hmem, ?_⟩
          exact addSV1_mono s _ e hok e₁.name hsome

end AddSVLemmas

/-- C6: registering an ideal distribution for a circuit-instance name that is
already registered fails with the duplicate-registration error; and a fresh
registration records the name, so a second registration of the same name can
never succeed — each instance is registered at most once. -/
theorem add_statevectors_duplicate :
    (∀ (s : QVState) (rs : List SVResult),
      (∀ r ∈ rs, ∀ e ∈ r.results,
        (((pySplitU e.name).get? 2).bind pyInt).isSome) →
      (∃ r ∈ rs, ∃ e ∈ r.results, (dictGet s.heavy_outputs e.name).isSome) →
      ∃ n, (QVFitter.add_statevectors s rs).2 =
        some (QVError.duplicateRegistration n)) ∧
    (∀ (s : QVState) (e : SVEntry),
      (((pySplitU e.name).get? 2).bind pyInt).isSome →
      dictGet s.heavy_outputs e.name = none →
      ∃ s', QVFitter.addSV1 s e = .ok s' ∧
        (dictGet s'.heavy_outputs e.name).isSome) := by
  constructor
  · intro s rs hparse hdup
    rw [QVFitter.add_statevectors]
    apply addSVList_duplicate
    · intro e he
      rw [List.mem_flatMap] at he
      obtain ⟨r, hr, he'⟩ := he
      exact hparse r hr e he'
    · obtain ⟨r, hr, e, he, hsome⟩ := hdup
      exact ⟨e, List.mem_flatMap.mpr ⟨r, hr, he⟩, hsome⟩
  · intro s e hparse hnone
    obtain ⟨depth, hde⟩ := Option.isSome_iff_exists.mp hparse
    have hok : QVFitter.addSV1 s e = .ok
        { s with
            heavy_outputs := dictInsert s.heavy_outputs e.name
              (QVFitter.heavy_strings (QVFitter.pmapOf depth e.svec)
                ((QVFitter.median_probabilities
                  [QVFitter.pmapOf depth e.svec]).getD 0 0)),
            heavy_output_prob_ideal :=
              dictInsert s.heavy_output_prob_ideal e.name
                (QVFitter.subset_probability
                  (QVFitter.heavy_strings (QVFitter.pmapOf depth e.svec)
                    ((QVFitter.median_probabilities
                      [QVFitter.pmapOf depth e.svec]).getD 0 0))
                  (QVFitter.pmapOf depth e.svec)) } := by
      rw [QVFitter.addSV1, hde]
      dsimp only
      rw [if_neg (by rw [hnone]; simp)]
    refine ⟨_, hok, ?_⟩
    rw [dictGet_insert_self]
    rfl

/-- Witness for C6: re-registering `qv_depth_1_trial_0`, which is already in
the heavy-outputs table, and a fresh registration of the same name on an
empty fitter. -/
theorem add_statevectors_duplicate_witness :
    (∃ n, (QVFitter.add_statevectors
      { depths := [1], ntrials := 0, result_list := [],
        heavy_output_counts := [], circ_shots := [],
        heavy_output_prob_ideal := [("qv_depth_1_trial_0", 1)],
        heavy_outputs := [("qv_depth_1_trial_0", ["1"])], ydata := [] }
      [⟨[⟨"qv_depth_1_trial_0", [(1, 0), (0, 0)]⟩]⟩]).2 =
        some (QVError.duplicateRegistration n)) ∧
    (∃ s', QVFitter.addSV1
      { depths := [1], ntrials := 0, result_list := [],
        heavy_output_counts := [], circ_shots := [],
        heavy_output_prob_ideal := [], heavy_outputs := [], ydata := [] }
      ⟨"qv_depth_1_trial_0", [(1, 0), (0, 0)]⟩ = .ok s' ∧
        (dictGet s'.heavy_outputs ("qv_depth_1_trial_0")).isSome) :=
  ⟨add_statevectors_duplicate.1
    { depths := [1], ntrials := 0, result_list := [],
      heavy_output_counts := [], circ_shots := [],
      heavy_output_prob_ideal := [("qv_depth_1_trial_0", 1)],
      heavy_outputs := [("qv_depth_1_trial_0", ["1"])], ydata := [] }
    [⟨[⟨"qv_depth_1_trial_0", [(1, 0), (0, 0)]⟩]⟩]
    (by
      intro r hr e he
      rw [List.mem_singleton] at hr
      subst hr
      rw [List.mem_singleton] at he
      subst he
      rfl)
    ⟨⟨[⟨"qv_depth_1_trial_0", [(1, 0), (0, 0)]⟩]⟩, List.mem_singleton.mpr rfl,
      ⟨"qv_depth_1_trial_0", [(1, 0), (0, 0)]⟩, List.mem_singleton.mpr rfl,
      rfl⟩,
   add_statevectors_duplicate.2
    { depths := [1], ntrials := 0, result_list := [],
      heavy_output_counts := [], circ_shots := [],
      heavy_output_prob_ideal := [], heavy_outputs := [], ydata := [] }
    ⟨"qv_depth_1_trial_0", [(1, 0), (0, 0)]⟩ rfl rfl⟩

theorem calcShots_congr (u s : QVState) (name : String)
    (h : u.result_list = s.result_list) : calcShots u name = calcShots s name := by
  rw [calcShots, calcShots, h]

theorem calcHOC_congr (u s : QVState) (name : String)
    (h₁ : u.result_list = s.result_list)
    (h₂ : u.heavy_outputs = s.heavy_outputs) :
    calcHOC u name = calcHOC s name := by
  rw [calcHOC, calcHOC, h₁, h₂]

theorem calcDataStep_eq (s : QVState) (d t : ℕ) (hs : List String)
    (h : dictGet s.heavy_outputs (circName d t) = some hs) :
    QVFitter.calcDataStep s d t = some
      { s with
          circ_shots := dictInsert s.circ_shots (circName d t)
            (calcShots s (circName d t)),
          heavy_output_counts := dictInsert s.heavy_output_counts (circName d t)
            (calcHOC s (circName d t)) } := by
  rw [QVFitter.calcDataStep, h]
  dsimp only
  rw [calcShots, calcHOC, h]

theorem calcDataStep_isSome_iff (s : QVState) (d t : ℕ) :
    (QVFitter.calcDataStep s d t).isSome ↔
      (dictGet s.heavy_outputs (circName d t)).isSome := by
  cases h : dictGet s.heavy_outputs (circName d t) with
  | none =>
      simp only [Option.isSome_none, iff_false]
      rw [QVFitter.calcDataStep, h]
      simp
  | some hs =>
      simp only [Option.isSome_some, iff_true]
      rw [calcDataStep_eq s d t hs h]
      rfl

theorem calcDataFold_isSome_iff (ps : List (ℕ × ℕ)) (s : QVState) :
    (QVFitter.calcDataFold s ps).isSome ↔
      ∀ p ∈ ps, (dictGet s.heavy_outputs (circName p.1 p.2)).isSome := by
  induction ps generalizing s with
  | nil => simp [QVFitter.calcDataFold]
  | cons q rest ih =>
      rw [QVFitter.calcDataFold]
      cases hstep : QVFitter.calcDataStep s q.1 q.2 with
      | none =>
          simp only [Option.isSome_none, Bool.false_eq_true, false_iff]
          intro hall
          have hq := hall q (List.mem_cons_self q rest)
          rw [← calcDataStep_isSome_iff, hstep] at hq
          simp at hq
      | some s₁ =>
          have hq : (dictGet s.heavy_outputs (circName q.1 q.2)).isSome := by
            rw [← calcDataStep_isSome_iff, hstep]
            rfl
          have hho : s₁.heavy_outputs = s.heavy_outputs :=
            (calcDataStep_frame s s₁ q.1 q.2 hstep).2.2.2.1
          rw [ih s₁]
          constructor
          · intro hall p hp
            rcases List.mem_cons.mp hp with heq | hmem
            · rw [heq]; exact hq
            · rw [← hho]; exact hall p hmem
          · intro hall p hp
            rw [hho]
            exact hall p (List.mem_cons_of_mem q hp)

/-- Values already recorded in the tables with their recomputed contents stay
untouched by the remainder of the `calc_data` fold. -/
theorem calcDataFold_keep (ps : List (ℕ × ℕ)) (u u' : QVState)
    (h : QVFitter.calcDataFold u ps = some u') (name : String)
    (hv : dictGet u.circ_shots name = some (calcShots u name))
    (hw : dictGet u.heavy_output_counts name = some (calcHOC u name)) :
    dictGet u'.circ_shots name = some (calcShots u name) ∧
      dictGet u'.heavy_output_counts name = some (calcHOC u name) := by
  induction ps generalizing u with
  | nil =>
      rw [QVFitter.calcDataFold] at h
      simp only [Option.some.injEq] at h
      subst h
      exact ⟨hv, hw⟩
  | cons q rest ih =>
      rw [QVFitter.calcDataFold] at h
      cases hstep : QVFitter.calcDataStep u q.1 q.2 with
      | none => rw [hstep] at h; exact absurd h (by simp)
      | some u₁ =>
          rw [hstep] at h
          obtain ⟨f1, f2, f3, f4, f5, f6⟩ := calcDataStep_frame u u₁ q.1 q.2 hstep
          have hsho : calcShots u₁ name = calcShots u name := calcShots_congr u₁ u name f3
          have hhoc : calcHOC u₁ name = calcHOC u name := calcHOC_congr u₁ u name f3 f4
          obtain ⟨hs, hhs⟩ := Option.isSome_iff_exists.mp
            (((calcDataStep_isSome_iff u q.1 q.2).mp (by rw [hstep]; rfl)))
          have hu₁ : u₁ = { u with
              circ_shots := dictInsert u.circ_shots (circName q.1 q.2)
                (calcShots u (circName q.1 q.2)),
              heavy_output_counts := dictInsert u.heavy_output_counts (circName q.1 q.2)
                (calcHOC u (circName q.1 q.2)) } := by
            have := calcDataStep_eq u q.1 q.2 hs hhs
            rw [hstep] at this
            simp only [Option.some.injEq] at this
            exact this
          have hv₁ : dictGet u₁.circ_shots name = some (calcShots u₁ name) := by
            rw [hsho, hu₁]
            by_cases hn : circName q.1 q.2 = name
            · rw [← hn] at hv ⊢
              show dictGet (dictInsert u.circ_shots (circName q.1 q.2) _) _ = _
              rw [dictGet_insert_self]
            · show dictGet (dictInsert u.circ_shots (circName q.1 q.2) _) _ = _
              rw [dictGet_insert_ne _ _ _ _ hn]
              exact hv
          have hw₁ : dictGet u₁.heavy_output_counts name =
              some (calcHOC u₁ name) := by
            rw [hhoc, hu₁]
            by_cases hn : circName q.1 q.2 = name
            · rw [← hn] at hw ⊢
              show dictGet
                (dictInsert u.heavy_output_counts (circName q.1 q.2) _) _ = _
              rw [dictGet_insert_self]
            · show dictGet
                (dictInsert u.heavy_output_counts (circName q.1 q.2) _) _ = _
              rw [dictGet_insert_ne _ _ _ _ hn]
              exact hw
          obtain ⟨r1, r2⟩ := ih u₁ h hv₁ hw₁
          rw [hsho] at r1
          rw [hhoc] at r2
          exact ⟨r1, r2⟩

/-- After a successful `calc_data` fold, the tables hold, for every iterated
`(depth, trial)` pair, exactly the recomputed shot total and heavy-output
count of the start state. -/
theorem calcDataFold_post (ps : List (ℕ × ℕ)) (s s' : QVState)
    (h : QVFitter.calcDataFold s ps = some s') (p : ℕ × ℕ) (hp : p ∈ ps) :
    dictGet s'.circ_shots (circName p.1 p.2) =
      some (calcShots s (circName p.1 p.2)) ∧
    dictGet s'.heavy_output_counts (circName p.1 p.2) =
      some (calcHOC s (circName p.1 p.2)) := by
  induction ps generalizing s with
  | nil => simp at hp
  | cons q rest ih =>
      rw [QVFitter.calcDataFold] at h
      cases hstep : QVFitter.calcDataStep s q.1 q.2 with
      | none => rw [hstep] at h; exact absurd h (by simp)
      | some s₁ =>
          rw [hstep] at h
          obtain ⟨f1, f2, f3, f4, f5, f6⟩ := calcDataStep_frame s s₁ q.1 q.2 hstep
          obtain ⟨hs, hhs⟩ := Option.isSome_iff_exists.mp
            (((calcDataStep_isSome_iff s q.1 q.2).mp (by rw [hstep]; rfl)))
          have hs₁ : s₁ = { s with
              circ_shots := dictInsert s.circ_shots (circName q.1 q.2)
                (calcShots s (circName q.1 q.2)),
              heavy_output_counts := dictInsert s.heavy_output_counts (circName q.1 q.2)
                (calcHOC s (circName q.1 q.2)) } := by
            have h₂ := calcDataStep_eq s q.1 q.2 hs hhs
            rw [hstep] at h₂
            simp only [Option.some.injEq] at h₂
            exact h₂
          rcases List.mem_cons.mp hp with heq | hmem
          · subst heq
            have hv₁ : dictGet s₁.circ_shots (circName p.1 p.2) =
                some (calcShots s₁ (circName p.1 p.2)) := by
              rw [calcShots_congr s₁ s _ f3, hs₁]
              show dictGet
                (dictInsert s.circ_shots (circName p.1 p.2) _) _ = _
              rw [dictGet_insert_self]
            have hw₁ : dictGet s₁.heavy_output_counts (circName p.1 p.2) =
                some (calcHOC s₁ (circName p.1 p.2)) := by
              rw [calcHOC_congr s₁ s _ f3 f4, hs₁]
              show dictGet
                (dictInsert s.heavy_output_counts (circName p.1 p.2) _) _ = _
              rw [dictGet_insert_self]
            obtain ⟨r1, r2⟩ := calcDataFold_keep rest s₁ s' h _ hv₁ hw₁
            rw [calcShots_congr s₁ s _ f3] at r1
            rw [calcHOC_congr s₁ s _ f3 f4] at r2
            exact ⟨r1, r2⟩
          · obtain ⟨r1, r2⟩ := ih s₁ h hmem
            rw [calcShots_congr s₁ s _ f3] at r1
            rw [calcHOC_congr s₁ s _ f3 f4] at r2
            exact ⟨r1, r2⟩

theorem mem_calcPairs (s : QVState) (d t : ℕ) :
    (d, t) ∈ QVFitter.calcPairs s ↔ d ∈ s.depths ∧ t < s.ntrials := by
  rw [QVFitter.calcPairs]
  constructor
  · intro h
    rw [List.mem_flatMap] at h
    obtain ⟨t₁, ht₁, hmap⟩ := h
    rw [List.mem_map] at hmap
    obtain ⟨d₁, hd₁, heq⟩ := hmap
    rw [Prod.mk.injEq] at heq
    obtain ⟨he1, he2⟩ := heq
    subst he1
    subst he2
    exact ⟨hd₁, List.mem_range.mp ht₁⟩
  · intro ⟨hd, ht⟩
    rw [List.mem_flatMap]
    exact ⟨t, List.mem_range.mpr ht, List.mem_map.mpr ⟨d, hd, rfl⟩⟩

/-- C10: `calc_data` looks up the heavy set of every `(depth, trial)` pair in
range — it succeeds exactly when an ideal distribution was registered for all
of them; and a registered pair occurring in no accumulated batch is stored
with zero total shots and zero heavy-output count instead of failing. -/
theorem calc_data_covers_all_pairs :
    (∀ s : QVState, (∃ s', QVFitter.calc_data s = some s') ↔
      (∀ d ∈ s.depths, ∀ t, t < s.ntrials →
        (dictGet s.heavy_outputs (circName d t)).isSome)) ∧
    (∀ (s s' : QVState) (d t : ℕ), QVFitter.calc_data s = some s' →
      d ∈ s.depths → t < s.ntrials →
      (∀ r ∈ s.result_list, getCounts r (circName d t) = none) →
      dictGet s'.circ_shots (circName d t) = some 0 ∧
      dictGet s'.heavy_output_counts (circName d t) = some 0) := by
  constructor
  · intro s
    rw [← Option.isSome_iff_exists, QVFitter.calc_data, calcDataFold_isSome_iff]
    constructor
    · intro hall d hd t ht
      exact hall (d, t) ((mem_calcPairs s d t).mpr ⟨hd, ht⟩)
    · intro hall p hp
      have hp₂ : (p.1, p.2) ∈ QVFitter.calcPairs s := hp
      obtain ⟨hd, ht⟩ := (mem_calcPairs s p.1 p.2).mp hp₂
      exact hall p.1 hd p.2 ht
  · intro s s' d t h hd ht hnone
    have hmerged : s.result_list.filterMap
        (fun r => getCounts r (circName d t)) = [] := by
      rw [List.filterMap_eq_nil_iff]
      exact hnone
    have hshots : calcShots s (circName d t) = 0 := by
      rw [calcShots, hmerged]
      rfl
    have hhoc : calcHOC s (circName d t) = 0 := by
      rw [calcHOC]
      cases hh : dictGet s.heavy_outputs (circName d t) with
      | none => rfl
      | some hs =>
          dsimp only
          rw [hmerged, QVFitter.subset_probability]
          apply List.sum_eq_zero
          intro x hx
          rw [List.mem_map] at hx
          obtain ⟨v, hv, hvx⟩ := hx
          rw [← hvx]
          rfl
    obtain ⟨r1, r2⟩ := calcDataFold_post (QVFitter.calcPairs s) s s' h (d, t)
      ((mem_calcPairs s d t).mpr ⟨hd, ht⟩)
    rw [hshots] at r1
    rw [hhoc] at r2
    exact ⟨r1, r2⟩

/-- Witness for C10: a single registered `(depth, trial)` pair with no count
batches at all is stored with zero shots, and the success-iff-registered
equivalence holds at the same state. -/
theorem calc_data_covers_all_pairs_witness :
    ((∃ s', QVFitter.calc_data
        { depths := [1], ntrials := 1, result_list := [],
          heavy_output_counts := [], circ_shots := [],
          heavy_output_prob_ideal := [("qv_depth_1_trial_0", 1)],
          heavy_outputs := [("qv_depth_1_trial_0", ["1"])], ydata := [] } =
        some s') ↔
      (∀ d ∈ [1], ∀ t, t < 1 →
        (dictGet [("qv_depth_1_trial_0", ["1"])] (circName d t)).isSome)) ∧
    dictGet [("qv_depth_1_trial_0", 0)] (circName 1 0) = some 0 :=
  ⟨calc_data_covers_all_pairs.1
    { depths := [1], ntrials := 1, result_list := [],
      heavy_output_counts := [], circ_shots := [],
      heavy_output_prob_ideal := [("qv_depth_1_trial_0", 1)],
      heavy_outputs := [("qv_depth_1_trial_0", ["1"])], ydata := [] },
   (calc_data_covers_all_pairs.2
      { depths := [1], ntrials := 1, result_list := [],
        heavy_output_counts := [], circ_shots := [],
        heavy_output_prob_ideal := [("qv_depth_1_trial_0", 1)],
        heavy_outputs := [("qv_depth_1_trial_0", ["1"])], ydata := [] }
      { depths := [1], ntrials := 1, result_list := [],
        heavy_output_counts := [("qv_depth_1_trial_0", 0)],
        circ_shots := [("qv_depth_1_trial_0", 0)],
        heavy_output_prob_ideal := [("qv_depth_1_trial_0", 1)],
        heavy_outputs := [("qv_depth_1_trial_0", ["1"])], ydata := [] }
      1 0 rfl (List.mem_singleton.mpr rfl) (by decide)
      (by intro r hr; exact absurd hr (List.not_mem_nil r))).1⟩

section IdempotenceLemmas

/-- A `calc_data` step whose target entries already hold the recomputed
values is the identity on the state. -/
theorem calcDataStep_noop (u : QVState) (d t : ℕ)
    (hho : (dictGet u.heavy_outputs (circName d t)).isSome)
    (hv : dictGet u.circ_shots (circName d t) =
      some (calcShots u (circName d t)))
    (hw : dictGet u.heavy_output_counts (circName d t) =
      some (calcHOC u (circName d t))) :
    QVFitter.calcDataStep u d t = some u := by
  obtain ⟨hs, hhs⟩ := Option.isSome_iff_exists.mp hho
  rw [calcDataStep_eq u d t hs hhs, dictInsert_self _ _ _ hv,
    dictInsert_self _ _ _ hw]

theorem calcDataFold_noop (ps : List (ℕ × ℕ)) (u : QVState)
    (hall : ∀ p ∈ ps,
      (dictGet u.heavy_outputs (circName p.1 p.2)).isSome ∧
      dictGet u.circ_shots (circName p.1 p.2) =
        some (calcShots u (circName p.1 p.2)) ∧
      dictGet u.heavy_output_counts (circName p.1 p.2) =
        some (calcHOC u (circName p.1 p.2))) :
    QVFitter.calcDataFold u ps = some u := by
  induction ps with
  | nil => rfl
  | cons q rest ih =>
      obtain ⟨h1, h2, h3⟩ := hall q (List.mem_cons_self q rest)
      rw [QVFitter.calcDataFold, calcDataStep_noop u q.1 q.2 h1 h2 h3]
      exact ih (fun p hp => hall p (List.mem_cons_of_mem q hp))

theorem statRow_congr (sqrt : ℚ → ℚ) (u v : QVState) (d : ℕ)
    (h1 : u.ntrials = v.ntrials)
    (h2 : u.heavy_output_counts = v.heavy_output_counts)
    (h3 : u.circ_shots = v.circ_shots)
    (h4 : u.heavy_output_prob_ideal = v.heavy_output_prob_ideal) :
    QVFitter.statRow sqrt u d = QVFitter.statRow sqrt v d := by
  rw [QVFitter.statRow, QVFitter.statRow, h1, h2, h3, h4]

theorem calc_statistics_shape (sqrt : ℚ → ℚ) (s s' : QVState)
    (h : QVFitter.calc_statistics sqrt s = some s') :
    ∃ rows, omap (QVFitter.statRow sqrt s) s.depths = some rows ∧
      s' = { s with ydata := rows } := by
  rw [QVFitter.calc_statistics] at h
  cases hrows : omap (QVFitter.statRow sqrt s) s.depths with
  | none => rw [hrows] at h; exact absurd h (by simp)
  | some rows =>
      rw [hrows] at h
      simp only [Option.some.injEq] at h
      exact ⟨rows, rfl, h.symm⟩

end IdempotenceLemmas

/-- C7: recomputation is idempotent — if `calc_data` followed by
`calc_statistics` turns `s` into `s'`, then running the same pair on `s'`
leaves `s'` exactly unchanged (same count tables, shot tables, and four-series
statistics). -/
theorem calc_recompute_idempotent (sqrt : ℚ → ℚ) (s s₁ s' : QVState)
    (h₁ : QVFitter.calc_data s = some s₁)
    (h₂ : QVFitter.calc_statistics sqrt s₁ = some s') :
    QVFitter.calc_data s' = some s' ∧
      QVFitter.calc_statistics sqrt s' = some s' := by
  obtain ⟨d1, d2, d3, d4, d5, d6⟩ := calc_data_frame s s₁ h₁
  obtain ⟨rows, hrows, hs'⟩ := calc_statistics_shape sqrt s₁ s' h₂
  subst hs'
  have e1 : ({ s₁ with ydata := rows } : QVState).depths = s₁.depths := rfl
  have e2 : ({ s₁ with ydata := rows } : QVState).ntrials = s₁.ntrials := rfl
  have e3 : ({ s₁ with ydata := rows } : QVState).result_list =
    s₁.result_list := rfl
  have e4 : ({ s₁ with ydata := rows } : QVState).heavy_outputs =
    s₁.heavy_outputs := rfl
  have e5 : ({ s₁ with ydata := rows } : QVState).heavy_output_prob_ideal =
    s₁.heavy_output_prob_ideal := rfl
  have e6 : ({ s₁ with ydata := rows } : QVState).heavy_output_counts =
    s₁.heavy_output_counts := rfl
  have e7 : ({ s₁ with ydata := rows } : QVState).circ_shots =
    s₁.circ_shots := rfl
  have hpairs : QVFitter.calcPairs { s₁ with ydata := rows } =
      QVFitter.calcPairs s := by
    rw [QVFitter.calcPairs, QVFitter.calcPairs, e1, e2, d1, d2]
  have hsucc : ∀ p ∈ QVFitter.calcPairs s,
      (dictGet s.heavy_outputs (circName p.1 p.2)).isSome :=
    (calcDataFold_isSome_iff (QVFitter.calcPairs s) s).mp
      (by rw [← QVFitter.calc_data, h₁]; rfl)
  have hcd : QVFitter.calc_data { s₁ with ydata := rows } =
      some { s₁ with ydata := rows } := by
    rw [QVFitter.calc_data, hpairs]
    apply calcDataFold_noop
    intro p hp
    obtain ⟨r1, r2⟩ := calcDataFold_post (QVFitter.calcPairs s) s s₁ h₁ p hp
    have hshots : calcShots { s₁ with ydata := rows } (circName p.1 p.2) =
        calcShots s (circName p.1 p.2) :=
      calcShots_congr _ s _ (e3.trans d3)
    have hhoc : calcHOC { s₁ with ydata := rows } (circName p.1 p.2) =
        calcHOC s (circName p.1 p.2) :=
      calcHOC_congr _ s _ (e3.trans d3) (e4.trans d4)
    refine ⟨?_, ?_, ?_⟩
    · rw [e4, d4]
      exact hsucc p hp
    · rw [e7, hshots]
      exact r1
    · rw [e6, hhoc]
      exact r2
  refine ⟨hcd, ?_⟩
  rw [QVFitter.calc_statistics, e1]
  rw [omap_congr (QVFitter.statRow sqrt { s₁ with ydata := rows })
    (QVFitter.statRow sqrt s₁) s₁.depths
    (fun d _ => statRow_congr sqrt { s₁ with ydata := rows } s₁ d e2 e6 e7 e5),
    hrows]

/-- Witness for C7 on the empty fitter state, where both recomputation passes
are the identity. -/
theorem calc_recompute_idempotent_witness :
    QVFitter.calc_data
        { depths := [], ntrials := 0, result_list := [],
          heavy_output_counts := [], circ_shots := [],
          heavy_output_prob_ideal := [], heavy_outputs := [], ydata := [] } =
      some
        { depths := [], ntrials := 0, result_list := [],
          heavy_output_counts := [], circ_shots := [],
          heavy_output_prob_ideal := [], heavy_outputs := [], ydata := [] } ∧
    QVFitter.calc_statistics (fun q => q)
        { depths := [], ntrials := 0, result_list := [],
          heavy_output_counts := [], circ_shots := [],
          heavy_output_prob_ideal := [], heavy_outputs := [], ydata := [] } =
      some
        { depths := [], ntrials := 0, result_list := [],
          heavy_output_counts := [], circ_shots := [],
          heavy_output_prob_ideal := [], heavy_outputs := [], ydata := [] } :=
  calc_recompute_idempotent (fun q => q)
    { depths := [], ntrials := 0, result_list := [],
      heavy_output_counts := [], circ_shots := [],
      heavy_output_prob_ideal := [], heavy_outputs := [], ydata := [] }
    { depths := [], ntrials := 0, result_list := [],
      heavy_output_counts := [], circ_shots := [],
      heavy_output_prob_ideal := [], heavy_outputs := [], ydata := [] }
    { depths := [], ntrials := 0, result_list := [],
      heavy_output_counts := [], circ_shots := [],
      heavy_output_prob_ideal := [], heavy_outputs := [], ydata := [] }
    rfl rfl

section HeavySetLemmas

theorem bits_length (w : ℕ) : ∀ b, (bits w b).length = w := by
  induction w with
  | zero => intro b; rfl
  | succ w ih =>
      intro b
      rw [bits, List.length_append, ih (b / 2)]
      rfl

theorem bits_inj (w : ℕ) : ∀ a b, a < 2 ^ w → b < 2 ^ w →
    bits w a = bits w b → a = b := by
  induction w with
  | zero =>
      intro a b ha hb _
      rw [pow_zero] at ha hb
      omega
  | succ w ih =>
      intro a b ha hb h
      rw [bits, bits] at h
      have hlen : (bits w (a / 2)).length = (bits w (b / 2)).length := by
        rw [bits_length, bits_length]
      obtain ⟨hpre, hlast⟩ := List.append_inj h hlen
      have hdiv : a / 2 = b / 2 := by
        apply ih
        · rw [Nat.div_lt_iff_lt_mul (by norm_num : 0 < 2)]
          rw [pow_succ] at ha
          exact ha
        · rw [Nat.div_lt_iff_lt_mul (by norm_num : 0 < 2)]
          rw [pow_succ] at hb
          exact hb
        · exact hpre
      have hmod : a % 2 = b % 2 := by
        have hc : (if a % 2 = 1 then '1' else '0') =
            (if b % 2 = 1 then '1' else '0') := by
          have := List.head_eq_of_cons_eq hlast
          exact this
        by_cases h1 : a % 2 = 1 <;> by_cases h2 : b % 2 = 1
        · rw [h1, h2]
        · rw [if_pos h1, if_neg h2] at hc
          exact absurd hc (by decide)
        · rw [if_neg h1, if_pos h2] at hc
          exact absurd hc (by decide)
        · omega
      omega

theorem bitString_inj (w a b : ℕ) (ha : a < 2 ^ w) (hb : b < 2 ^ w)
    (h : bitString w a = bitString w b) : a = b :=
  bits_inj w a b ha hb (congrArg String.data h)

theorem dictGet_map_inj {α : Type} (l : List ℕ) (key : ℕ → String)
    (val : ℕ → α) (b : ℕ) (hb : b ∈ l)
    (hinj : ∀ a ∈ l, key a = key b → a = b) :
    dictGet (l.map (fun i => (key i, val i))) (key b) = some (val b) := by
  induction l with
  | nil => simp at hb
  | cons a rest ih =>
      rw [List.map_cons, dictGet]
      by_cases hk : key a = key b
      · rw [if_pos hk, hinj a (List.mem_cons_self a rest) hk]
      · rw [if_neg hk]
        rcases List.mem_cons.mp hb with heq | hmem
        · exact absurd (by rw [heq]) hk
        · exact ih hmem (fun x hx => hinj x (List.mem_cons_of_mem a hx))

theorem dictGet_pmapOf (depth : ℕ) (svec : List (ℚ × ℚ)) (b : ℕ)
    (hb : b < 2 ^ depth) :
    dictGet (QVFitter.pmapOf depth svec) (bitString depth b) =
      some (QVFitter.probAt svec b) := by
  rw [QVFitter.pmapOf]
  exact dictGet_map_inj (List.range (2 ^ depth)) (bitString depth)
    (QVFitter.probAt svec) b (List.mem_range.mpr hb)
    (fun a ha h => bitString_inj depth a b (List.mem_range.mp ha) hb h)

theorem heavy_strings_pmap_eq (depth : ℕ) (svec : List (ℚ × ℚ)) (m : ℚ) :
    QVFitter.heavy_strings (QVFitter.pmapOf depth svec) m =
      ((List.range (2 ^ depth)).filter
        (fun b => decide (m < QVFitter.probAt svec b))).map
        (fun b => bitString depth b) := by
  rw [QVFitter.heavy_strings]
  have hkeys : (QVFitter.pmapOf depth svec).map (fun kv => kv.1) =
      (List.range (2 ^ depth)).map (fun b => bitString depth b) := by
    rw [QVFitter.pmapOf, List.map_map]
    rfl
  rw [hkeys, List.filter_map]
  congr 1
  apply List.filter_congr
  intro b hb
  have := dictGet_pmapOf depth svec b (List.mem_range.mp hb)
  simp only [Function.comp_apply, dictGetD, this, Option.getD_some]

theorem mem_heavy_strings_pmap (depth : ℕ) (svec : List (ℚ × ℚ)) (m : ℚ)
    (b : ℕ) (hb : b < 2 ^ depth) :
    bitString depth b ∈ QVFitter.heavy_strings (QVFitter.pmapOf depth svec) m ↔
      m < QVFitter.probAt svec b := by
  rw [heavy_strings_pmap_eq]
  constructor
  · intro h
    rw [List.mem_map] at h
    obtain ⟨b₁, hb₁, heq⟩ := h
    rw [List.mem_filter] at hb₁
    have hb₁r := List.mem_range.mp hb₁.1
    have : b₁ = b := bitString_inj depth b₁ b hb₁r hb heq
    subst this
    exact of_decide_eq_true hb₁.2
  · intro h
    rw [List.mem_map]
    exact ⟨b, List.mem_filter.mpr
      ⟨List.mem_range.mpr hb, decide_eq_true h⟩, rfl⟩

theorem heavy_strings_pmap_shape (depth : ℕ) (svec : List (ℚ × ℚ)) (m : ℚ)
    (x : String)
    (hx : x ∈ QVFitter.heavy_strings (QVFitter.pmapOf depth svec) m) :
    ∃ b, b < 2 ^ depth ∧ x = bitString depth b := by
  rw [heavy_strings_pmap_eq] at hx
  rw [List.mem_map] at hx
  obtain ⟨b, hb, heq⟩ := hx
  rw [List.mem_filter] at hb
  exact ⟨b, List.mem_range.mp hb.1, heq.symm⟩

theorem subset_probability_heavy_eq (depth : ℕ) (svec : List (ℚ × ℚ)) (m : ℚ) :
    QVFitter.subset_probability
      (QVFitter.heavy_strings (QVFitter.pmapOf depth svec) m)
      (QVFitter.pmapOf depth svec) =
      (((List.range (2 ^ depth)).filter
        (fun b => decide (m < QVFitter.probAt svec b))).map
        (QVFitter.probAt svec)).sum := by
  rw [QVFitter.subset_probability, heavy_strings_pmap_eq, List.map_map]
  congr 1
  apply List.map_congr_left
  intro b hb
  rw [List.mem_filter] at hb
  have := dictGet_pmapOf depth svec b (List.mem_range.mp hb.1)
  simp only [Function.comp_apply, dictGetD, this, Option.getD_some]

end HeavySetLemmas

section RegistrationLemmas

theorem addSV1_ok_shape (s : QVState) (e : SVEntry) (s' : QVState)
    (h : QVFitter.addSV1 s e = .ok s') :
    ∃ depth, ((pySplitU e.name).get? 2).bind pyInt = some depth ∧
      dictGet s.heavy_outputs e.name = none ∧
      s' = { s with
        heavy_outputs := dictInsert s.heavy_outputs e.name
          (QVFitter.heavy_strings (QVFitter.pmapOf depth e.svec)
            ((QVFitter.median_probabilities
              [QVFitter.pmapOf depth e.svec]).getD 0 0)),
        heavy_output_prob_ideal := dictInsert s.heavy_output_prob_ideal e.name
          (QVFitter.subset_probability
            (QVFitter.heavy_strings (QVFitter.pmapOf depth e.svec)
              ((QVFitter.median_probabilities
                [QVFitter.pmapOf depth e.svec]).getD 0 0))
            (QVFitter.pmapOf depth e.svec)) } := by
  rw [QVFitter.addSV1] at h
  cases hp : ((pySplitU e.name).get? 2).bind pyInt with
  | none => rw [hp] at h; exact absurd h (by simp)
  | some depth =>
      rw [hp] at h
      dsimp only at h
      by_cases hdup : (dictGet s.heavy_outputs e.name).isSome
      · rw [if_pos hdup] at h
        exact absurd h (by simp)
      · rw [if_neg hdup] at h
        simp only [Except.ok.injEq] at h
        exact ⟨depth, rfl, Option.not_isSome_iff_eq_none.mp hdup, h.symm⟩

theorem addSVList_preserve (es : List SVEntry) (s s' : QVState)
    (h : QVFitter.addSVList s es = (s', none)) (k : String)
    (hs₀ : List String) (p₀ : ℚ)
    (h1 : dictGet s.heavy_outputs k = some hs₀)
    (h2 : dictGet s.heavy_output_prob_ideal k = some p₀) :
    dictGet s'.heavy_outputs k = some hs₀ ∧
      dictGet s'.heavy_output_prob_ideal k = some p₀ := by
  induction es generalizing s with
  | nil =>
      rw [QVFitter.addSVList] at h
      simp only [Prod.mk.injEq] at h
      rw [← h.1]
      exact ⟨h1, h2⟩
  | cons e rest ih =>
      rw [QVFitter.addSVList] at h
      cases ha : QVFitter.addSV1 s e with
      | error err =>
          rw [ha] at h
          simp only [Prod.mk.injEq] at h
          exact absurd h.2 (by simp)
      | ok s₁ =>
          rw [ha] at h
          obtain ⟨depth, _, hnone, hshape⟩ := addSV1_ok_shape s e s₁ ha
          have hne : e.name ≠ k := by
            intro heq
            rw [heq, h1] at hnone
            exact Option.noConfusion hnone
          refine ih s₁ h ?_ ?_
          · rw [hshape]
            show dictGet (dictInsert s.heavy_outputs e.name _) k = _
            rw [dictGet_insert_ne _ _ _ _ hne]
            exact h1
          · rw [hshape]
            show dictGet (dictInsert s.heavy_output_prob_ideal e.name _) k = _
            rw [dictGet_insert_ne _ _ _ _ hne]
            exact h2

theorem addSVList_registers (es : List SVEntry) (s s' : QVState)
    (h : QVFitter.addSVList s es = (s', none)) (e : SVEntry) (he : e ∈ es)
    (depth : ℕ) (hd : ((pySplitU e.name).get? 2).bind pyInt = some depth) :
    dictGet s'.heavy_outputs e.name =
      some (QVFitter.heavy_strings (QVFitter.pmapOf depth e.svec)
        ((QVFitter.median_probabilities
          [QVFitter.pmapOf depth e.svec]).getD 0 0)) ∧
    dictGet s'.heavy_output_prob_ideal e.name =
      some (QVFitter.subset_probability
        (QVFitter.heavy_strings (QVFitter.pmapOf depth e.svec)
          ((QVFitter.median_probabilities
            [QVFitter.pmapOf depth e.svec]).getD 0 0))
        (QVFitter.pmapOf depth e.svec)) := by
  induction es generalizing s with
  | nil => simp at he
  | cons e₁ rest ih =>
      rw [QVFitter.addSVList] at h
      cases ha : QVFitter.addSV1 s e₁ with
      | error err =>
          rw [ha] at h
          simp only [Prod.mk.injEq] at h
          exact absurd h.2 (by simp)
      | ok s₁ =>
          rw [ha] at h
          obtain ⟨depth₁, hp₁, hnone, hshape⟩ := addSV1_ok_shape s e₁ s₁ ha
          rcases List.mem_cons.mp he with heq | hmem
          · subst heq
            rw [hd] at hp₁
            have hdd : depth₁ = depth := by
              simp only [Option.some.injEq] at hp₁
              exact hp₁.symm
            subst hdd
            apply addSVList_preserve rest s₁ s' h
            · rw [hshape]
              show dictGet (dictInsert s.heavy_outputs e.name _) e.name = _
              rw [dictGet_insert_self]
            · rw [hshape]
              show dictGet
                (dictInsert s.heavy_output_prob_ideal e.name _) e.name = _
              rw [dictGet_insert_self]
          · exact ih s₁ h hmem

end RegistrationLemmas

/-- C2: for every circuit instance registered through `add_statevectors`, the
stored heavy set is exactly the set of width-`depth` bitstrings whose ideal
probability strictly exceeds the median ideal probability over all
`2 ^ depth` bitstrings, and the stored ideal heavy-output probability equals
(exactly, hence within any tolerance) the sum of the ideal probabilities of
the heavy-set bitstrings. -/
theorem add_statevectors_heavy_set (s : QVState) (rs : List SVResult)
    (s' : QVState) (r : SVResult) (e : SVEntry) (depth : ℕ)
    (h : QVFitter.add_statevectors s rs = (s', none))
    (hr : r ∈ rs) (he : e ∈ r.results)
    (hd : ((pySplitU e.name).get? 2).bind pyInt = some depth) :
    ∃ (hs : List String) (p : ℚ),
      dictGet s'.heavy_outputs e.name = some hs ∧
      dictGet s'.heavy_output_prob_ideal e.name = some p ∧
      (∀ b, b < 2 ^ depth →
        (bitString depth b ∈ hs ↔
          QVFitter.npMedian ((QVFitter.pmapOf depth e.svec).map (fun kv => kv.2)) <
            QVFitter.probAt e.svec b)) ∧
      (∀ x ∈ hs, ∃ b, b < 2 ^ depth ∧ x = bitString depth b) ∧
      p = (((List.range (2 ^ depth)).filter (fun b =>
            decide (QVFitter.npMedian
              ((QVFitter.pmapOf depth e.svec).map (fun kv => kv.2)) <
              QVFitter.probAt e.svec b))).map (QVFitter.probAt e.svec)).sum := by
  rw [QVFitter.add_statevectors] at h
  have he' : e ∈ rs.flatMap (fun r => r.results) :=
    List.mem_flatMap.mpr ⟨r, hr, he⟩
  obtain ⟨g1, g2⟩ := addSVList_registers _ s s' h e he' depth hd
  have hm : ((QVFitter.median_probabilities
      [QVFitter.pmapOf depth e.svec]).getD 0 0) =
      QVFitter.npMedian ((QVFitter.pmapOf depth e.svec).map (fun kv => kv.2)) := rfl
  refine ⟨_, _, g1, g2, ?_, ?_, ?_⟩
  · intro b hb
    rw [hm] at *
    exact mem_heavy_strings_pmap depth e.svec _ b hb
  · intro x hx
    exact heavy_strings_pmap_shape depth e.svec _ x hx
  · rw [hm, subset_probability_heavy_eq]

/-- Witness for C2: registering the depth-1 statevector `[1, 0]`; its ideal
distribution is `{0 ↦ 1, 1 ↦ 0}` with median `1/2` and heavy set `{"0"}`. -/
theorem add_statevectors_heavy_set_witness :
    ∃ (hs : List String) (p : ℚ),
      dictGet
        [("qv_depth_1_trial_0",
          QVFitter.heavy_strings (QVFitter.pmapOf 1 [(1, 0), (0, 0)])
            ((QVFitter.median_probabilities
              [QVFitter.pmapOf 1 [(1, 0), (0, 0)]]).getD 0 0))]
        ("qv_depth_1_trial_0") = some hs ∧
      dictGet
        [("qv_depth_1_trial_0",
          QVFitter.subset_probability
            (QVFitter.heavy_strings (QVFitter.pmapOf 1 [(1, 0), (0, 0)])
              ((QVFitter.median_probabilities
                [QVFitter.pmapOf 1 [(1, 0), (0, 0)]]).getD 0 0))
            (QVFitter.pmapOf 1 [(1, 0), (0, 0)]))]
        ("qv_depth_1_trial_0") = some p ∧
      (∀ b, b < 2 ^ 1 →
        (bitString 1 b ∈ hs ↔
          QVFitter.npMedian ((QVFitter.pmapOf 1 [(1, 0), (0, 0)]).map (fun kv => kv.2)) <
            QVFitter.probAt [(1, 0), (0, 0)] b)) ∧
      (∀ x ∈ hs, ∃ b, b < 2 ^ 1 ∧ x = bitString 1 b) ∧
      p = (((List.range (2 ^ 1)).filter (fun b =>
            decide (QVFitter.npMedian
              ((QVFitter.pmapOf 1 [(1, 0), (0, 0)]).map (fun kv => kv.2)) <
              QVFitter.probAt [(1, 0), (0, 0)] b))).map
            (QVFitter.probAt [(1, 0), (0, 0)])).sum :=
  add_statevectors_heavy_set
    { depths := [1], ntrials := 0, result_list := [],
      heavy_output_counts := [], circ_shots := [],
      heavy_output_prob_ideal := [], heavy_outputs := [], ydata := [] }
    [⟨[⟨"qv_depth_1_trial_0", [(1, 0), (0, 0)]⟩]⟩]
    { depths := [1], ntrials := 0, result_list := [],
      heavy_output_counts := [], circ_shots := [],
      heavy_output_prob_ideal :=
        [("qv_depth_1_trial_0",
          QVFitter.subset_probability
            (QVFitter.heavy_strings (QVFitter.pmapOf 1 [(1, 0), (0, 0)])
              ((QVFitter.median_probabilities
                [QVFitter.pmapOf 1 [(1, 0), (0, 0)]]).getD 0 0))
            (QVFitter.pmapOf 1 [(1, 0), (0, 0)]))],
      heavy_outputs :=
        [("qv_depth_1_trial_0",
          QVFitter.heavy_strings (QVFitter.pmapOf 1 [(1, 0), (0, 0)])
            ((QVFitter.median_probabilities
              [QVFitter.pmapOf 1 [(1, 0), (0, 0)]]).getD 0 0))],
      ydata := [] }
    ⟨[⟨"qv_depth_1_trial_0", [(1, 0), (0, 0)]⟩]⟩
    ⟨"qv_depth_1_trial_0", [(1, 0), (0, 0)]⟩ 1
    rfl (List.mem_singleton.mpr rfl) (List.mem_singleton.mpr rfl) rfl
